import Mathlib

/-!
Verification of the schema-driven instruction codec and account resolver of
`aqd-solana-contracts` (part of `solang-aqd`), shallowly embedded in Lean 4.

The embedding follows `src/crates/aqd-solana-contracts/src/utils.rs`
(`construct_instruction_data`, `get_borsh_token_vector`,
`encode_id_defined_type`, `construct_instruction_accounts`).  The crate's
`borsh_encoding` module (`BorshToken`, `discriminator`, `encode_arguments`) is
not present in the provided sources; those definitions are modelled from the
specification (wire-format rules and the discriminator description), pinned by
the byte-for-byte test vectors in `tests/test_flipper.rs`, `tests/test_arrays.rs`
and `tests/test_defined_types.rs`.

Machine integers are represented as `Nat`/`Int` with explicit `% 2^w`
truncation where overflow matters.  Fallible code returns `Except SolErr`.
Rust panics (`unwrap`) are distinguished from ordinary `anyhow` errors by a
separate `SolErr` constructor.  Recursion through user-defined IDL types is
made total with an explicit fuel parameter; running out of fuel is a
distinguished outcome that corresponds to non-termination of the original
recursion and is never conflated with the program's own errors.
-/

/-- Error outcomes of the embedded code: `err` models an ordinary `anyhow`
error returned through `Result`, `panicked` models a Rust panic (`unwrap` on
`None`/`Err`), and `outOfFuel` is the artefact of the fuel-based embedding. -/
inductive SolErr where
  | err (msg : String)
  | panicked (msg : String)
  | outOfFuel
deriving DecidableEq

deriving instance DecidableEq for Except

/-- `k` little-endian base-256 digits of `n` (the first `k` bytes of `n`). -/
def leBytes : Nat → Nat → List Nat
  | 0, _ => []
  | k + 1, n => (n % 256) :: leBytes k (n / 256)

/-- UTF-8 encoding of a single character (standard 1-to-4 byte encoding). -/
def utf8Char (c : Char) : List Nat :=
  let n := c.toNat
  if n < 128 then [n]
  else if n < 2048 then [192 + n / 64, 128 + n % 64]
  else if n < 65536 then [224 + n / 4096, 128 + n / 64 % 64, 128 + n % 64]
  else [240 + n / 262144, 128 + n / 4096 % 64, 128 + n / 64 % 64, 128 + n % 64]

/-- UTF-8 byte sequence of a string, as Rust's `str::as_bytes`. -/
def utf8Bytes (s : String) : List Nat :=
  (s.data.map utf8Char).flatten

/-! ### SHA-256

The discriminator in the missing `borsh_encoding` module applies a
cryptographic hash; the test vectors in `tests/` identify it as SHA-256 over
`"<namespace>:<name>"`.  This is a complete executable SHA-256 over byte
lists. -/

/-- Truncation to a 32-bit word. -/
def w32 (n : Nat) : Nat := n % 4294967296

/-- Right rotation of a 32-bit word by `n` bits, written arithmetically. -/
def rotr (n x : Nat) : Nat := w32 (x / 2 ^ n + x % 2 ^ n * 2 ^ (32 - n))

/-- Logical right shift of a 32-bit word. -/
def shr (n x : Nat) : Nat := x / 2 ^ n

/-- Bitwise complement of a 32-bit word. -/
def bnot32 (x : Nat) : Nat := 4294967295 - x

def bigSigma0 (x : Nat) : Nat := rotr 2 x ^^^ rotr 13 x ^^^ rotr 22 x
def bigSigma1 (x : Nat) : Nat := rotr 6 x ^^^ rotr 11 x ^^^ rotr 25 x
def smallSigma0 (x : Nat) : Nat := rotr 7 x ^^^ rotr 18 x ^^^ shr 3 x
def smallSigma1 (x : Nat) : Nat := rotr 17 x ^^^ rotr 19 x ^^^ shr 10 x
def chFn (e f g : Nat) : Nat := (e &&& f) ^^^ (bnot32 e &&& g)
def majFn (a b c : Nat) : Nat := (a &&& b) ^^^ (a &&& c) ^^^ (b &&& c)

/-- The 64 SHA-256 round constants. -/
def sha256K : List Nat :=
  [1116352408, 1899447441, 3049323471, 3921009573, 961987163, 1508970993, 2453635748, 2870763221,
   3624381080, 310598401, 607225278, 1426881987, 1925078388, 2162078206, 2614888103, 3248222580,
   3835390401, 4022224774, 264347078, 604807628, 770255983, 1249150122, 1555081692, 1996064986,
   2554220882, 2821834349, 2952996808, 3210313671, 3336571891, 3584528711, 113926993, 338241895,
   666307205, 773529912, 1294757372, 1396182291, 1695183700, 1986661051, 2177026350, 2456956037,
   2730485921, 2820302411, 3259730800, 3345764771, 3516065817, 3600352804, 4094571909, 275423344,
   430227734, 506948616, 659060556, 883997877, 958139571, 1322822218, 1537002063, 1747873779,
   1955562222, 2024104815, 2227730452, 2361852424, 2428436474, 2756734187, 3204031479, 3329325298]

/-- SHA-256 working state: eight 32-bit words. -/
structure H8 where
  a : Nat
  b : Nat
  c : Nat
  d : Nat
  e : Nat
  f : Nat
  g : Nat
  h : Nat

/-- SHA-256 message padding: `0x80`, zeros, then the 64-bit big-endian bit
length, to a multiple of 64 bytes. -/
def sha256Pad (msg : List Nat) : List Nat :=
  let len := msg.length
  let k := (64 - (len + 9) % 64) % 64
  msg ++ [128] ++ List.replicate k 0 ++ (leBytes 8 (8 * len)).reverse

/-- Big-endian 32-bit words from a byte list (groups of four). -/
def beWords : List Nat → List Nat
  | b0 :: b1 :: b2 :: b3 :: rest => (((b0 * 256 + b1) * 256 + b2) * 256 + b3) :: beWords rest
  | _ => []

/-- Extend the 16-word message schedule by `t` further words. -/
def schedExtend : Nat → List Nat → List Nat
  | 0, w => w
  | t + 1, w =>
      schedExtend t (w ++ [w32 (smallSigma1 (w.getD (w.length - 2) 0) + w.getD (w.length - 7) 0 +
        smallSigma0 (w.getD (w.length - 15) 0) + w.getD (w.length - 16) 0)])

/-- Full 64-word message schedule of one block. -/
def msgSched (block : List Nat) : List Nat := schedExtend 48 (beWords block)

/-- One SHA-256 compression round; the argument is `K[t] + W[t]` (mod 2^32). -/
def sha256Round (s : H8) (kw : Nat) : H8 :=
  let t1 := w32 (s.h + bigSigma1 s.e + chFn s.e s.f s.g + kw)
  let t2 := w32 (bigSigma0 s.a + majFn s.a s.b s.c)
  ⟨w32 (t1 + t2), s.a, s.b, s.c, w32 (s.d + t1), s.e, s.f, s.g⟩

/-- Compress one 64-byte block into the running hash state. -/
def sha256Block (s : H8) (block : List Nat) : H8 :=
  let kws := (sha256K.zip (msgSched block)).map (fun p => w32 (p.1 + p.2))
  let t := kws.foldl sha256Round s
  ⟨w32 (s.a + t.a), w32 (s.b + t.b), w32 (s.c + t.c), w32 (s.d + t.d),
   w32 (s.e + t.e), w32 (s.f + t.f), w32 (s.g + t.g), w32 (s.h + t.h)⟩

/-- Split a byte list into 64-byte chunks (fuel-driven, structurally total). -/
def chunksGo : Nat → List Nat → List (List Nat)
  | 0, _ => []
  | _ + 1, [] => []
  | n + 1, l => l.take 64 :: chunksGo n (l.drop 64)

def chunks64 (l : List Nat) : List (List Nat) := chunksGo l.length l

/-- SHA-256 of a byte list, as a list of 32 bytes. -/
def sha256 (msg : List Nat) : List Nat :=
  let s := (chunks64 (sha256Pad msg)).foldl sha256Block
    ⟨1779033703, 3144134277, 1013904242, 2773480762, 1359893119, 2600822924, 528734635, 1541459225⟩
  ([s.a, s.b, s.c, s.d, s.e, s.f, s.g, s.h].map (fun w => (leBytes 4 w).reverse)).flatten

/-- Modelled from the spec: the 8-byte instruction discriminator of the
missing `borsh_encoding::discriminator`.  The spec (§4.2) says it is the
fixed namespace literal concatenated with the instruction name, passed
through a cryptographic hash and truncated to the first 8 bytes; the test
vectors in `tests/test_flipper.rs` and `tests/test_arrays.rs` pin the hash to
SHA-256 and the concatenation to `"<namespace>:<name>"` (Anchor's
convention). -/
def discriminator (ns name : String) : List Nat :=
  (sha256 (utf8Bytes (ns ++ ":" ++ name))).take 8

/-! ### IDL schema model

Mirrors the `anchor_syn::idl` types used by `utils.rs`: `IdlType`,
`IdlField`, `IdlTypeDefinition` (struct or enum), `IdlAccountItem` and
`IdlInstruction`.  Enum variants carry only a name (the schema attaches no
payload to variants). -/

inductive IdlType where
  | Bool
  | U8
  | I8
  | U16
  | I16
  | U32
  | I32
  | F32
  | U64
  | I64
  | F64
  | U128
  | I128
  | U256
  | I256
  | Bytes
  | String
  | PublicKey
  | Defined (name : String)
  | Option (t : IdlType)
  | Vec (elem : IdlType)
  | Array (elem : IdlType) (size : Nat)

structure IdlField where
  name : String
  ty : IdlType

structure IdlEnumVariant where
  name : String

inductive IdlTypeDefinitionTy where
  | Struct (fields : List IdlField)
  | Enum (variants : List IdlEnumVariant)

structure IdlTypeDefinition where
  name : String
  ty : IdlTypeDefinitionTy

inductive IdlAccountItem where
  | IdlAccount (name : String) (isSigner : Bool) (isMut : Bool)
  | IdlAccounts

structure IdlInstruction where
  name : String
  args : List IdlField
  accounts : List IdlAccountItem

/-! ### Borsh runtime tokens and the wire encoding

Modelled from the spec: the missing `borsh_encoding::BorshToken` tagged
union (§3 "Token") and the byte layout of §4.3/§6.  `BorshTokenList` is an
inlined list type so that the mutual recursion below is structural and
kernel-computable; it is the `Vec<BorshToken>` of the source. -/

mutual
inductive BorshToken where
  | Bool (b : Bool)
  | Uint (width : Nat) (value : Int)
  | Int (width : Nat) (value : Int)
  | Bytes (bytes : List Nat)
  | String (s : String)
  | Address (addr : List Nat)
  | Array (elems : BorshTokenList)
  | FixedArray (elems : BorshTokenList)
inductive BorshTokenList where
  | nil
  | cons (t : BorshToken) (ts : BorshTokenList)
end

def BorshTokenList.length : BorshTokenList → Nat
  | .nil => 0
  | .cons _ ts => ts.length + 1

def BorshTokenList.append : BorshTokenList → BorshTokenList → BorshTokenList
  | .nil, ys => ys
  | .cons t ts, ys => .cons t (ts.append ys)

instance : Append BorshTokenList := ⟨BorshTokenList.append⟩

def BorshTokenList.toList : BorshTokenList → List BorshToken
  | .nil => []
  | .cons t ts => t :: ts.toList

/-- A singleton token list. -/
def BorshTokenList.one (t : BorshToken) : BorshTokenList := .cons t .nil

mutual
/-- Modelled from the spec: byte serialization of one token (§4.3):
Bool is one byte; Uint/Int are `width/8` little-endian bytes
(two's-complement, i.e. the value mod `2^width`); Bytes/String carry a
4-byte little-endian length prefix; Address is 32 raw bytes; Array (a
vector value) carries a 4-byte little-endian element count; FixedArray has
no prefix. -/
def encodeToken : BorshToken → List Nat
  | .Bool b => [if b then 1 else 0]
  | .Uint w v => leBytes (w / 8) ((v % ((2 : Int) ^ w)).toNat)
  | .Int w v => leBytes (w / 8) ((v % ((2 : Int) ^ w)).toNat)
  | .Bytes bs => leBytes 4 bs.length ++ bs
  | .String s => leBytes 4 (utf8Bytes s).length ++ utf8Bytes s
  | .Address a => a
  | .Array ts => leBytes 4 ts.length ++ encodeTokens ts
  | .FixedArray ts => encodeTokens ts
/-- Serialization of a token list: each token in order, concatenated. -/
def encodeTokens : BorshTokenList → List Nat
  | .nil => []
  | .cons t ts => encodeToken t ++ encodeTokens ts
end

/-- Modelled from the spec: the missing `borsh_encoding::encode_arguments`,
which serializes the accumulated argument tokens in order into one byte
buffer (§4.3; the wire format of §6 is `discriminator || encoded
arguments`). -/
def encodeArguments (args : BorshTokenList) : List Nat := encodeTokens args

/-! ### Rust-style string-to-number parsing

Embeddings of the parsing primitives `utils.rs` calls: `str::parse::<uN>`,
`str::parse::<iN>`, `num_bigint::BigInt::parse_bytes(_, 10)`,
`str::parse::<bool>`, `hex::decode`, and `base58::FromBase58`. -/

def digitsToNat (cs : List Char) : Nat :=
  cs.foldl (fun a c => a * 10 + (c.toNat - 48)) 0

/-- Rust `str::parse` for an unsigned integer type with maximum `max`:
an optional leading `+`, then one or more decimal digits, value in range. -/
def rustParseUnsigned (s : String) (max : Nat) : Option Nat :=
  let cs := match s.data with
    | '+' :: rest => rest
    | cs => cs
  if cs ≠ [] ∧ cs.all Char.isDigit then
    let n := digitsToNat cs
    if n ≤ max then some n else none
  else none

/-- Rust `str::parse` for a signed integer type with range `[min, max]`:
an optional leading `+` or `-`, then one or more decimal digits. -/
def rustParseSigned (s : String) (min max : Int) : Option Int :=
  match s.data with
  | '-' :: rest =>
      if rest ≠ [] ∧ rest.all Char.isDigit then
        let n : Int := digitsToNat rest
        if min ≤ -n then some (-n) else none
      else none
  | cs =>
      let cs := match cs with
        | '+' :: rest => rest
        | cs => cs
      if cs ≠ [] ∧ cs.all Char.isDigit then
        let n : Int := digitsToNat cs
        if n ≤ max then some n else none
      else none

/-- `BigInt::parse_bytes(_, 10)`: an optional sign followed by one or more
decimal digits, arbitrary precision. -/
def bigintParse (s : String) : Option Int :=
  match s.data with
  | '-' :: rest =>
      if rest ≠ [] ∧ rest.all Char.isDigit then some (-(digitsToNat rest : Int)) else none
  | '+' :: rest =>
      if rest ≠ [] ∧ rest.all Char.isDigit then some (digitsToNat rest : Int) else none
  | cs =>
      if cs ≠ [] ∧ cs.all Char.isDigit then some (digitsToNat cs : Int) else none

/-- Rust `str::parse::<bool>`: exactly `true` or `false`. -/
def rustParseBool (s : String) : Option Bool :=
  if s = "true" then some true else if s = "false" then some false else none

def hexDigitVal (c : Char) : Option Nat :=
  if '0' ≤ c ∧ c ≤ '9' then some (c.toNat - 48)
  else if 'a' ≤ c ∧ c ≤ 'f' then some (c.toNat - 87)
  else if 'A' ≤ c ∧ c ≤ 'F' then some (c.toNat - 55)
  else none

def hexPairs : List Char → Option (List Nat)
  | [] => some []
  | c1 :: c2 :: rest =>
      match hexDigitVal c1, hexDigitVal c2, hexPairs rest with
      | some hi, some lo, some bs => some ((hi * 16 + lo) :: bs)
      | _, _, _ => none
  | [_] => none

/-- `hex::decode`: pairs of hex digits; odd length or a non-hex character
fails. -/
def hexDecode (s : String) : Option (List Nat) := hexPairs s.data

def base58Alphabet : List Char :=
  "123456789ABCDEFGHJKLMNPQRSTUVWXYZabcdefghijkmnopqrstuvwxyz".data

def base58DigitVal (c : Char) : Option Nat :=
  let rec go : List Char → Nat → Option Nat
    | [], _ => none
    | a :: rest, i => if a = c then some i else go rest (i + 1)
  go base58Alphabet 0

/-- `base58::FromBase58`: each leading `1` is a zero byte; the remaining
digits form a big-endian base-58 number, emitted as its minimal big-endian
byte string. -/
def fromBase58 (s : String) : Option (List Nat) :=
  if s.data.all (fun c => (base58DigitVal c).isSome) then
    let z := (s.data.takeWhile (fun c => c = '1')).length
    let n := s.data.foldl (fun a c => a * 58 + (base58DigitVal c).getD 0) 0
    some (List.replicate z 0 ++ (leBytes s.length n).reverse.dropWhile (fun b => b = 0))
  else none

/-- Rust `str::split(',')`, which always yields at least one piece and keeps
empty pieces (splitting the empty string yields one empty piece). -/
def splitCharList : List Char → List (List Char)
  | [] => [[]]
  | c :: rest =>
      match splitCharList rest with
      | [] => [[]]
      | g :: gs => if c = ',' then [] :: g :: gs else (c :: g) :: gs

def splitCommas (s : String) : List String :=
  (splitCharList s.data).map (fun l => ⟨l⟩)

/-! ### JSON values (serde_json model)

The struct branch of `encode_id_defined_type` parses the raw argument with
`serde_json::from_str`, looks fields up with `Value::get`, and re-renders
each field value with `Value::to_string` before recursively encoding it.
This is an executable model of that behaviour.  Modelled subset: numbers are
restricted to (optionally signed) integer literals and string escapes to the
single-character escapes; the fixture inputs and every value exercised by
the claims lie inside this subset.  `JsonSeq`/`JsonMembers` are inlined list
types so the mutual recursion stays structural and kernel-computable. -/

mutual
inductive Json where
  | null
  | bool (b : Bool)
  | num (raw : String)
  | str (s : String)
  | arr (items : JsonSeq)
  | obj (members : JsonMembers)
inductive JsonSeq where
  | nil
  | cons (v : Json) (rest : JsonSeq)
inductive JsonMembers where
  | nil
  | cons (key : String) (val : Json) (rest : JsonMembers)
end

/-- `serde_json` object insertion: a duplicate key replaces the earlier
value (last one wins). -/
def JsonMembers.insertKV : JsonMembers → String → Json → JsonMembers
  | .nil, k, v => .cons k v .nil
  | .cons k' v' rest, k, v =>
      if k' = k then .cons k v rest else .cons k' v' (rest.insertKV k v)

def JsonMembers.find : JsonMembers → String → Option Json
  | .nil, _ => none
  | .cons k' v rest, k => if k' = k then some v else rest.find k

/-- `serde_json::Value::get` with a string key: a lookup on objects, `none`
on every other value. -/
def Json.get : Json → String → Option Json
  | .obj ms, k => ms.find k
  | _, _ => none

def hexLowerChar (n : Nat) : Char :=
  if n < 10 then Char.ofNat (48 + n) else Char.ofNat (87 + n)

/-- JSON string escaping as `serde_json` renders it. -/
def jsonEscChar (c : Char) : List Char :=
  if c = '"' then ['\\', '"']
  else if c = '\\' then ['\\', '\\']
  else if c = Char.ofNat 8 then ['\\', 'b']
  else if c = Char.ofNat 9 then ['\\', 't']
  else if c = Char.ofNat 10 then ['\\', 'n']
  else if c = Char.ofNat 12 then ['\\', 'f']
  else if c = Char.ofNat 13 then ['\\', 'r']
  else if c.toNat < 32 then
    ['\\', 'u', '0', '0', hexLowerChar (c.toNat / 16), hexLowerChar (c.toNat % 16)]
  else [c]

def jsonQuote (s : String) : String :=
  ⟨'"' :: (s.data.map jsonEscChar).flatten ++ ['"']⟩

mutual
/-- `serde_json::Value::to_string` (compact rendering). -/
def Json.toStr : Json → String
  | .null => "null"
  | .bool b => if b then "true" else "false"
  | .num raw => raw
  | .str s => jsonQuote s
  | .arr xs => "[" ++ JsonSeq.toStrs xs ++ "]"
  | .obj ms => ⟨[Char.ofNat 123]⟩ ++ JsonMembers.toStrs ms ++ ⟨[Char.ofNat 125]⟩
def JsonSeq.toStrs : JsonSeq → String
  | .nil => ""
  | .cons v .nil => Json.toStr v
  | .cons v (.cons w rest) => Json.toStr v ++ "," ++ JsonSeq.toStrs (.cons w rest)
def JsonMembers.toStrs : JsonMembers → String
  | .nil => ""
  | .cons k v .nil => jsonQuote k ++ ":" ++ Json.toStr v
  | .cons k v (.cons k' v' rest) =>
      jsonQuote k ++ ":" ++ Json.toStr v ++ "," ++ JsonMembers.toStrs (.cons k' v' rest)
end

/-- JSON whitespace skipping (space, tab, line feed, carriage return). -/
def skipWs (cs : List Char) : List Char :=
  cs.dropWhile (fun c => c = ' ' || c = Char.ofNat 9 || c = Char.ofNat 10 || c = Char.ofNat 13)

/-- Parse the contents of a JSON string after its opening quote, returning
the accumulated characters and the remainder after the closing quote. -/
def strChars : List Char → Option (List Char × List Char)
  | [] => none
  | '"' :: rest => some ([], rest)
  | '\\' :: e :: rest =>
      match (strChars rest).bind (fun p =>
        (match e with
         | '"' => some '"'
         | '\\' => some '\\'
         | '/' => some '/'
         | 'b' => some (Char.ofNat 8)
         | 'f' => some (Char.ofNat 12)
         | 'n' => some (Char.ofNat 10)
         | 'r' => some (Char.ofNat 13)
         | 't' => some (Char.ofNat 9)
         | _ => none).map (fun c => (c :: p.1, p.2))) with
      | some q => some q
      | none => none
  | c :: rest => (strChars rest).map (fun p => (c :: p.1, p.2))

def stripPfx : List Char → List Char → Option (List Char)
  | [], cs => some cs
  | p :: ps, c :: cs => if p = c then stripPfx ps cs else none
  | _ :: _, [] => none

/-- Parse a JSON number (modelled integer subset): optional `-`, then `0` or
a nonzero digit followed by digits; a fraction or exponent is outside the
modelled subset. -/
def parseJsonNumber (cs : List Char) : Option (String × List Char) :=
  let sign : List Char := if cs.headD ' ' = '-' then ['-'] else []
  let cs1 := if cs.headD ' ' = '-' then cs.tail else cs
  let ds := cs1.takeWhile Char.isDigit
  let rest := cs1.dropWhile Char.isDigit
  if ds = [] then none
  else if ds.length > 1 ∧ ds.headD '0' = '0' then none
  else
    match rest with
    | '.' :: _ => none
    | 'e' :: _ => none
    | 'E' :: _ => none
    | _ => some (⟨sign ++ ds⟩, rest)

def seqOfList : List Json → JsonSeq
  | [] => .nil
  | v :: rest => .cons v (seqOfList rest)

mutual
/-- Fuel-driven recursive-descent JSON value parser (serde_json grammar on
the modelled subset).  Leading whitespace is skipped. -/
def jsonVal : Nat → List Char → Option (Json × List Char)
  | 0, _ => none
  | fuel + 1, cs =>
    match skipWs cs with
    | [] => none
    | c :: rest =>
      if c = '"' then (strChars rest).map (fun p => (Json.str ⟨p.1⟩, p.2))
      else if c = Char.ofNat 123 then
        match skipWs rest with
        | c2 :: r2 =>
            if c2 = Char.ofNat 125 then some (Json.obj .nil, r2)
            else
              (jsonMembersP fuel (skipWs rest)).map (fun p =>
                (Json.obj (p.1.foldl (fun ms kv => ms.insertKV kv.1 kv.2) JsonMembers.nil), p.2))
        | [] => none
      else if c = '[' then
        match skipWs rest with
        | ']' :: r2 => some (Json.arr .nil, r2)
        | _ => (jsonItems fuel (skipWs rest)).map (fun p => (Json.arr (seqOfList p.1), p.2))
      else if c = 'n' then (stripPfx ['u', 'l', 'l'] rest).map (fun r => (Json.null, r))
      else if c = 't' then (stripPfx ['r', 'u', 'e'] rest).map (fun r => (Json.bool true, r))
      else if c = 'f' then (stripPfx ['a', 'l', 's', 'e'] rest).map (fun r => (Json.bool false, r))
      else (parseJsonNumber (c :: rest)).map (fun p => (Json.num p.1, p.2))
/-- Parse one or more comma-separated array items up to the closing
bracket. -/
def jsonItems : Nat → List Char → Option (List Json × List Char)
  | 0, _ => none
  | fuel + 1, cs => do
    let (v, r) ← jsonVal fuel cs
    match skipWs r with
    | ',' :: r2 => (jsonItems fuel r2).map (fun p => (v :: p.1, p.2))
    | ']' :: r2 => some ([v], r2)
    | _ => none
/-- Parse one or more `"key": value` members up to the closing brace. -/
def jsonMembersP : Nat → List Char → Option (List (String × Json) × List Char)
  | 0, _ => none
  | fuel + 1, cs =>
    match cs with
    | c :: rest =>
        if c = '"' then do
          let (k, r) ← strChars rest
          match skipWs r with
          | ':' :: r2 => do
              let (v, r3) ← jsonVal fuel r2
              match skipWs r3 with
              | ',' :: r4 => (jsonMembersP fuel (skipWs r4)).map (fun p => ((⟨k⟩, v) :: p.1, p.2))
              | c2 :: r4 => if c2 = Char.ofNat 125 then some ([(⟨k⟩, v)], r4) else none
              | [] => none
          | _ => none
        else none
    | [] => none
end

/-- `serde_json::from_str`: parse one value and require that only trailing
whitespace remains. -/
def jsonFromStr (s : String) : Option Json :=
  match jsonVal (s.data.length + 4) s.data with
  | some (v, rest) => if skipWs rest = [] then some v else none
  | none => none

/-! ### The instruction data encoder

Embedding of `get_borsh_token_vector`, `encode_id_defined_type` and
`construct_instruction_data` from `utils.rs`.  The only I/O these functions
perform is the struct branch's attempt to read the raw argument as a file
path (`std::fs::read_to_string`); that collaborator is threaded in as
`EncEnv`.  The mutual recursion through `Defined` types is fuel-driven (the
source recursion diverges on cyclic type definitions); every recursive call
decrements the fuel, so with enough fuel the embedding computes exactly what
the source computes. -/

structure EncEnv where
  readFile : String → Option String

def mkScalarErrMsg (tyName kind v : String) : String :=
  "The provided argument for " ++ tyName ++ " is not a valid " ++ kind ++
    ". \nProvided argument: " ++ v ++ "\n"

def arraySizeErrMsg (v : String) : String :=
  "The number of elements in the array does not match the size of the array. \nProvided argument: "
    ++ v ++ "\n"

def structErrMsg (v : String) : String :=
  mkScalarErrMsg "Struct" "JSON object" v

/-- Rust `{:?}` rendering of a `Vec<String>` of variant names. -/
def rustDebugStrList (l : List String) : String :=
  let rec go : List String → String
    | [] => ""
    | [s] => "\"" ++ s ++ "\""
    | s :: t :: rest => "\"" ++ s ++ "\", " ++ go (t :: rest)
  "[" ++ go l ++ "]"

def variantNotFoundMsg (v tyName : String) (names : List String) : String :=
  "Variant " ++ v ++ " not found. \nAvailable variants of " ++ tyName ++ ": " ++
    rustDebugStrList names

/-- `variants.iter().position(|v| v.name == arg_value)`. -/
def variantPosition : List IdlEnumVariant → String → Option Nat
  | [], _ => none
  | v :: rest, s => if v.name = s then some 0 else (variantPosition rest s).map (· + 1)

/-- `arg_value.replace('\"', "")`: remove every double-quote character. -/
def removeQuotes (s : String) : String :=
  ⟨s.data.filter (fun c => c != '"')⟩

mutual
/-- `get_borsh_token_vector(arg_value, arg_type, custom_types)`: convert one
raw argument string into the token vector for its declared IDL type. -/
def getBorshTokenVector (env : EncEnv) (customTypes : List IdlTypeDefinition) :
    Nat → String → IdlType → Except SolErr BorshTokenList
  | 0, _, _ => .error .outOfFuel
  | fuel + 1, v, ty =>
    match ty with
    | .Bool =>
        match rustParseBool v with
        | some b => .ok (.one (.Bool b))
        | none => .error (.err (mkScalarErrMsg "bool" "boolean" v))
    | .U8 =>
        match rustParseUnsigned v 255 with
        | some n => .ok (.one (.Uint 8 n))
        | none => .error (.err (mkScalarErrMsg "u8" "unsigned integer" v))
    | .I8 =>
        match rustParseSigned v (-128) 127 with
        | some n => .ok (.one (.Int 8 n))
        | none => .error (.err (mkScalarErrMsg "i8" "signed integer" v))
    | .U16 =>
        match rustParseUnsigned v 65535 with
        | some n => .ok (.one (.Uint 16 n))
        | none => .error (.err (mkScalarErrMsg "u16" "unsigned integer" v))
    | .I16 =>
        match rustParseSigned v (-32768) 32767 with
        | some n => .ok (.one (.Int 16 n))
        | none => .error (.err (mkScalarErrMsg "i16" "signed integer" v))
    | .U32 =>
        match rustParseUnsigned v 4294967295 with
        | some n => .ok (.one (.Uint 32 n))
        | none => .error (.err (mkScalarErrMsg "u32" "unsigned integer" v))
    | .I32 =>
        match rustParseSigned v (-2147483648) 2147483647 with
        | some n => .ok (.one (.Int 32 n))
        | none => .error (.err (mkScalarErrMsg "i32" "signed integer" v))
    | .F32 => .error (.err "Float is not supported")
    | .U64 =>
        match rustParseUnsigned v 18446744073709551615 with
        | some n => .ok (.one (.Uint 64 n))
        | none => .error (.err (mkScalarErrMsg "u64" "unsigned integer" v))
    | .I64 =>
        match rustParseSigned v (-9223372036854775808) 9223372036854775807 with
        | some n => .ok (.one (.Int 64 n))
        | none => .error (.err (mkScalarErrMsg "i64" "signed integer" v))
    | .F64 => .error (.err "Float is not supported")
    | .U128 =>
        match rustParseUnsigned v 340282366920938463463374607431768211455 with
        | some n => .ok (.one (.Uint 128 n))
        | none => .error (.err (mkScalarErrMsg "u128" "unsigned integer" v))
    | .I128 =>
        match rustParseSigned v (-170141183460469231731687303715884105728)
            170141183460469231731687303715884105727 with
        | some n => .ok (.one (.Int 128 n))
        | none => .error (.err (mkScalarErrMsg "i128" "signed integer" v))
    | .U256 =>
        match bigintParse v with
        | some n => .ok (.one (.Uint 256 n))
        | none => .error (.err (mkScalarErrMsg "u256" "unsigned integer" v))
    | .I256 =>
        match bigintParse v with
        | some n => .ok (.one (.Int 256 n))
        | none => .error (.err (mkScalarErrMsg "i256" "unsigned integer" v))
    | .Bytes =>
        match hexDecode v with
        | some bs => .ok (.one (.Bytes bs))
        | none => .error (.err (mkScalarErrMsg "Bytes" "hex string" v))
    | .String => .ok (.one (.String v))
    | .PublicKey =>
        match fromBase58 v with
        | some bs =>
            if bs.length = 32 then .ok (.one (.Address bs))
            else .error (.err (mkScalarErrMsg "PublicKey" "base58 string" v))
        | none => .error (.err (mkScalarErrMsg "PublicKey" "base58 string" v))
    | .Defined tyName =>
        match customTypes.find? (fun t => t.name = tyName) with
        | none => .error (.err ("Type definition with name " ++ tyName ++ " not found"))
        | some td => encodeIdDefinedType env customTypes fuel v td
    | .Option _ => .error (.err "Option is not supported")
    | .Vec elemTy =>
        match encodeElems env customTypes fuel (splitCommas v) elemTy with
        | .error e => .error e
        | .ok elems => .ok (.one (.Array elems))
    | .Array elemTy size =>
        let vals := splitCommas v
        if vals.length ≠ size then .error (.err (arraySizeErrMsg v))
        else
          match encodeElems env customTypes fuel vals elemTy with
          | .error e => .error e
          | .ok elems => .ok (.one (.FixedArray elems))
/-- The element loop shared by the `Vec` and `Array` branches: recursively
encode each comma-separated piece and append the token vectors. -/
def encodeElems (env : EncEnv) (customTypes : List IdlTypeDefinition) :
    Nat → List String → IdlType → Except SolErr BorshTokenList
  | 0, _, _ => .error .outOfFuel
  | _ + 1, [], _ => .ok .nil
  | fuel + 1, v :: rest, ty =>
      match getBorshTokenVector env customTypes fuel v ty with
      | .error e => .error e
      | .ok ts =>
          match encodeElems env customTypes fuel rest ty with
          | .error e => .error e
          | .ok ts' => .ok (ts ++ ts')
/-- `encode_id_defined_type(arg_value, defined_type, custom_types)`: encode
a raw argument against a user-defined struct or enum type. -/
def encodeIdDefinedType (env : EncEnv) (customTypes : List IdlTypeDefinition) :
    Nat → String → IdlTypeDefinition → Except SolErr BorshTokenList
  | 0, _, _ => .error .outOfFuel
  | fuel + 1, v, td =>
    match td.ty with
    | .Struct fields =>
        let v' := match env.readFile v with
          | some s => s
          | none => v
        match jsonFromStr v' with
        | none => .error (.err (structErrMsg v'))
        | some j => encodeFields env customTypes fuel j fields
    | .Enum variants =>
        let v' := removeQuotes v
        match variantPosition variants v' with
        | none =>
            .error (.err (variantNotFoundMsg v' td.name (variants.map IdlEnumVariant.name)))
        | some idx => getBorshTokenVector env customTypes fuel (toString idx) .U8
/-- The field loop of the struct branch: look each declared field up by name
in the parsed JSON object, re-render it with `Value::to_string`, and encode
it recursively at its declared type. -/
def encodeFields (env : EncEnv) (customTypes : List IdlTypeDefinition) :
    Nat → Json → List IdlField → Except SolErr BorshTokenList
  | 0, _, _ => .error .outOfFuel
  | _ + 1, _, [] => .ok .nil
  | fuel + 1, j, f :: rest =>
      match j.get f.name with
      | none => .error (.err ("Field " ++ f.name ++ " not found"))
      | some fv =>
          match getBorshTokenVector env customTypes fuel (Json.toStr fv) f.ty with
          | .error e => .error e
          | .ok ts =>
              match encodeFields env customTypes fuel j rest with
              | .error e => .error e
              | .ok ts' => .ok (ts ++ ts')
end

/-- The argument loop of `construct_instruction_data`: consume the raw
string for each declared argument in order (`raw_args.get(i)`), encode it,
and append the resulting tokens. -/
def encodeArgsLoop (env : EncEnv) (customTypes : List IdlTypeDefinition) (fuel : Nat) :
    List IdlField → List String → Nat → Except SolErr BorshTokenList
  | [], _, _ => .ok .nil
  | arg :: rest, raws, i =>
      match raws[i]? with
      | none => .error (.err ("Missing argument " ++ arg.name))
      | some v =>
          match getBorshTokenVector env customTypes fuel v arg.ty with
          | .error e => .error e
          | .ok ts =>
              match encodeArgsLoop env customTypes fuel rest raws (i + 1) with
              | .error e => .error e
              | .ok ts' => .ok (ts ++ ts')

/-- `construct_instruction_data(instr, raw_args, custom_types)`: the
discriminator over namespace `"global"` and the instruction name, followed
by the serialized argument tokens. -/
def constructInstructionData (env : EncEnv) (fuel : Nat) (instr : IdlInstruction)
    (rawArgs : List String) (customTypes : List IdlTypeDefinition) :
    Except SolErr (List Nat) :=
  match encodeArgsLoop env customTypes fuel instr.args rawArgs 0 with
  | .error e => .error e
  | .ok args => .ok (discriminator "global" instr.name ++ encodeArguments args)

/-! ### The account reference resolver

Embedding of `construct_instruction_accounts` from `utils.rs`.  Its
collaborators — keypair generation (`Keypair::new`), keypair file writing
and reading, the solana CLI config file, and `Pubkey::from_str` — are
threaded in as `SolanaEnv`.  A public key is represented by its base58
rendering (a `String`), which is all the resolver ever compares or prints;
a `Keypair` value stands for key material whose public key is its `pubkey`
field.  `fresh n` is the keypair minted by the `n`-th `Keypair::new` call of
the invocation.  `Config::load(..).unwrap_or_default()` is modelled by
`loadConfig` with the default keypair path substituted on failure, and the
two `unwrap` calls of the `self` branch are modelled as panics. -/

structure Keypair where
  pubkey : String
deriving DecidableEq

structure AccountMeta where
  pubkey : String
  isSigner : Bool
  isWritable : Bool
deriving DecidableEq

structure SolanaEnv where
  fresh : Nat → Keypair
  writeOk : String → Bool
  configFile : Option String
  loadConfig : String → Option String
  defaultKeypairPath : String
  readKeypairFile : String → Option Keypair
  parsePubkey : String → Option String

/-- `solana_sdk::system_program::id()` in base58. -/
def systemProgramId : String := "11111111111111111111111111111111"

def invalidKeyOrPathMsg (accountName raw : String) : String :=
  "The provided argument for account: " ++ accountName ++
    " is not a valid keyword, keypair path or public key. \nProvided argument: " ++ raw

/-- The keyword dispatch of `construct_instruction_accounts` for one raw
account string: yields the optional key material, the resolved public key,
the new-account records pushed, and the updated mint counter. -/
def resolveAccountRaw (env : SolanaEnv) (accountName raw : String) (mint : Nat) :
    Except SolErr (Option Keypair × String × List (String × String) × Nat) :=
  if raw = "new" then
    let keypair := env.fresh mint
    let pubkey := keypair.pubkey
    let keypairPath := accountName ++ "-" ++ pubkey ++ ".json"
    if env.writeOk keypairPath then
      .ok (some keypair, pubkey, [(pubkey, keypairPath)], mint + 1)
    else .error (.err "Couldn't write keypair file to disk")
  else if raw = "self" then
    match env.configFile with
    | none => .error (.panicked "called `Option::unwrap()` on a `None` value")
    | some configFile =>
        let keypairPath := (env.loadConfig configFile).getD env.defaultKeypairPath
        match env.readKeypairFile keypairPath with
        | none => .error (.panicked "called `Result::unwrap()` on an `Err` value")
        | some keypair => .ok (some keypair, keypair.pubkey, [], mint)
  else if raw = "system" then .ok (none, systemProgramId, [], mint)
  else
    match env.readKeypairFile raw with
    | some keypair => .ok (some keypair, keypair.pubkey, [], mint)
    | none =>
        match env.parsePubkey raw with
        | some pubkey => .ok (none, pubkey, [], mint)
        | none => .error (.err (invalidKeyOrPathMsg accountName raw))

/-- One iteration of the account loop: reject nested account groups, fetch
the raw string for this position, resolve it, enforce the signer check, and
produce the `AccountMeta` with the descriptor's declared flags. -/
def resolveAccountStep (env : SolanaEnv) (item : IdlAccountItem) (raws : List String)
    (i mint : Nat) :
    Except SolErr (AccountMeta × List Keypair × List (String × String) × Nat) :=
  match item with
  | .IdlAccounts => .error (.err "Nested accounts not supported")
  | .IdlAccount accountName isSigner isWritable =>
      match raws[i]? with
      | none => .error (.err ("Missing account: " ++ accountName))
      | some raw =>
          match resolveAccountRaw env accountName raw mint with
          | .error e => .error e
          | .ok (keyPair, pubkey, news, mint') =>
              if isSigner then
                match keyPair with
                | none => .error (.err (invalidKeyOrPathMsg accountName raw))
                | some kp => .ok (⟨pubkey, isSigner, isWritable⟩, [kp], news, mint')
              else .ok (⟨pubkey, isSigner, isWritable⟩, [], news, mint')

/-- The account loop of `construct_instruction_accounts`, accumulating
metas, signers and new accounts in declaration order. -/
def accountsLoop (env : SolanaEnv) :
    List IdlAccountItem → List String → Nat → Nat →
    Except SolErr (List AccountMeta × List Keypair × List (String × String))
  | [], _, _, _ => .ok ([], [], [])
  | item :: rest, raws, i, mint =>
      match resolveAccountStep env item raws i mint with
      | .error e => .error e
      | .ok (meta, signerAdds, news, mint') =>
          match accountsLoop env rest raws (i + 1) mint' with
          | .error e => .error e
          | .ok (metas, signers, newsRest) =>
              .ok (meta :: metas, signerAdds ++ signers, news ++ newsRest)

/-- `construct_instruction_accounts(instr, raw_args)`. -/
def constructInstructionAccounts (env : SolanaEnv) (instr : IdlInstruction)
    (rawArgs : List String) :
    Except SolErr (List AccountMeta × List Keypair × List (String × String)) :=
  accountsLoop env instr.accounts rawArgs 0 0

/-! ### Concrete fixtures

Instructions, type definitions and environments used to instantiate the
claims; the instruction and type shapes follow the test fixtures
(`flipper.json`, `array.json`, `VectorTest.json`, `DefinedTypes.json`). -/

/-- An encoder environment in which no raw argument names a readable file. -/
def encEnv0 : EncEnv := ⟨fun _ => none⟩

def flipperNew : IdlInstruction := ⟨"new", [⟨"initvalue", .Bool⟩], []⟩

def vecU8New : IdlInstruction := ⟨"new", [⟨"input", .Vec .U8⟩], []⟩

def arrU8New : IdlInstruction := ⟨"new", [⟨"input", .Array .U8 4⟩], []⟩

def noArgsNew : IdlInstruction := ⟨"new", [], []⟩

def twoBoolNew : IdlInstruction := ⟨"new", [⟨"a", .Bool⟩, ⟨"b", .Bool⟩], []⟩

def colorDef : IdlTypeDefinition := ⟨"Color", .Enum [⟨"Red"⟩, ⟨"Green"⟩, ⟨"Blue"⟩]⟩

def personDef : IdlTypeDefinition :=
  ⟨"Person", .Struct [⟨"name", .String⟩, ⟨"age", .U8⟩, ⟨"favoriteColor", .Defined "Color"⟩]⟩

def definedTypesNew : IdlInstruction := ⟨"new", [⟨"input", .Defined "Person"⟩], []⟩

/-- A struct type with no fields: its JSON rendering `\x7b\x7d` contains no
comma, so a vector of it exposes the token-count/substring-count split. -/
def emptyStructDef : IdlTypeDefinition := ⟨"Empty", .Struct []⟩

def vecEmptyNew : IdlInstruction := ⟨"new", [⟨"input", .Vec (.Defined "Empty")⟩], []⟩

/-- An enum with 257 variants `v0 … v256`. -/
def bigEnumDef : IdlTypeDefinition :=
  ⟨"Big", .Enum ((List.range 257).map (fun i => ⟨"v" ++ toString i⟩))⟩

/-- A resolver environment in which every file operation succeeds and no raw
string is a keypair path or a parseable public key. -/
def benignEnv : SolanaEnv :=
  ⟨fun n => ⟨"new-pk-" ++ toString n⟩, fun _ => true, some "cfg",
   fun _ => some "kp-path", "default-kp", fun _ => none, fun _ => none⟩

/-- Like `benignEnv`, but every keypair-file write fails. -/
def envNoWrite : SolanaEnv :=
  ⟨fun n => ⟨"new-pk-" ++ toString n⟩, fun _ => false, some "cfg",
   fun _ => some "kp-path", "default-kp", fun _ => none, fun _ => none⟩

/-- A resolver environment in which the config file fails to load (so the
default keypair path is used) and reading that keypair file fails. -/
def envSelfBad : SolanaEnv :=
  ⟨fun n => ⟨"new-pk-" ++ toString n⟩, fun _ => true, some "cfg",
   fun _ => none, "default-kp", fun _ => none, fun _ => none⟩

def sysSignerInstr : IdlInstruction := ⟨"foo", [], [.IdlAccount "acc" true false]⟩

def sysPlainInstr : IdlInstruction := ⟨"foo", [], [.IdlAccount "acc" false true]⟩

def newAccInstr : IdlInstruction := ⟨"foo", [], [.IdlAccount "dataAccount" true true]⟩

def selfAccInstr : IdlInstruction := ⟨"foo", [], [.IdlAccount "payer" true true]⟩

def twoAccInstr : IdlInstruction :=
  ⟨"foo", [], [.IdlAccount "a" false false, .IdlAccount "b" false false]⟩

/-- Number of signer-flagged plain account descriptors. -/
def countSigners : List IdlAccountItem → Nat
  | [] => 0
  | .IdlAccount _ isS _ :: rest => (if isS then 1 else 0) + countSigners rest
  | .IdlAccounts :: rest => countSigners rest

/-- Number of positions whose raw account string is the keyword `"new"`. -/
def countNews (raws : List String) : List IdlAccountItem → Nat → Nat
  | [], _ => 0
  | _ :: rest, i => (if raws[i]? = some "new" then 1 else 0) + countNews raws rest (i + 1)

/-! ### Basic length facts -/

theorem leBytes_length (k n : Nat) : (leBytes k n).length = k := by
  induction k generalizing n with
  | zero => rfl
  | succ k ih => simp [leBytes, ih]

theorem sha256_length (msg : List Nat) : (sha256 msg).length = 32 := by
  simp [sha256, leBytes_length]

theorem discriminator_length (ns name : String) : (discriminator ns name).length = 8 := by
  simp [discriminator, sha256_length]

/-! ### C1 -/

/-- C1: whenever `construct_instruction_data` succeeds, the returned buffer
begins with the 8-byte discriminator over the fixed namespace `"global"` and
the instruction name; the discriminator is a deterministic function of the
name, so instructions with equal names get equal discriminators; and every
instruction named `"new"` yields the prefix `[135,44,205,198,25,1,72,188]`. -/
theorem c1_discriminator_prefix :
    (∀ (env : EncEnv) (fuel : Nat) (instr : IdlInstruction) (rawArgs : List String)
       (customTypes : List IdlTypeDefinition) (out : List Nat),
       constructInstructionData env fuel instr rawArgs customTypes = .ok out →
       out.take 8 = discriminator "global" instr.name) ∧
    (∀ i1 i2 : IdlInstruction, i1.name = i2.name →
       discriminator "global" i1.name = discriminator "global" i2.name) ∧
    discriminator "global" "new" = [135, 44, 205, 198, 25, 1, 72, 188] := by
  refine ⟨?_, fun i1 i2 h => by rw [h], by decide⟩
  intro env fuel instr rawArgs customTypes out h
  unfold constructInstructionData at h
  cases hs : encodeArgsLoop env customTypes fuel instr.args rawArgs 0 with
  | error e => rw [hs] at h; cases h
  | ok args =>
      rw [hs] at h
      injection h with h
      rw [← h, show (8 : Nat) = (discriminator "global" instr.name).length from
        (discriminator_length _ _).symm, List.take_left]

/-- Witness for C1 at the flipper fixture: encoding `new(bool)` with
`"true"` yields a buffer whose first 8 bytes are the discriminator. -/
theorem c1_discriminator_prefix_witness :
    ([135, 44, 205, 198, 25, 1, 72, 188, 1] : List Nat).take 8 =
      discriminator "global" "new" :=
  c1_discriminator_prefix.1 encEnv0 9 flipperNew ["true"] [] _ (by decide)


/-! ### Inversion lemmas for the account resolver -/

/-- Successful resolution of the `"system"` keyword: the well-known address,
no key material, no new accounts, mint counter unchanged. -/
theorem resolveAccountRaw_system (env : SolanaEnv) (accountName : String) (mint : Nat) :
    resolveAccountRaw env accountName "system" mint = .ok (none, systemProgramId, [], mint) :=
  rfl

/-- Inversion of a successful step: the item is a plain account, a raw
string was present at position `i`, the keyword dispatch succeeded with the
meta's pubkey, and the signer additions are `[kp]` or `[]` according to the
descriptor's signer flag. -/
theorem resolveAccountStep_ok_inv (env : SolanaEnv) (item : IdlAccountItem)
    (raws : List String) (i mint : Nat) (meta : AccountMeta) (sAdds : List Keypair)
    (nAdds : List (String × String)) (mint' : Nat)
    (h : resolveAccountStep env item raws i mint = .ok (meta, sAdds, nAdds, mint')) :
    ∃ accountName isSigner isWritable raw keyPair,
      item = .IdlAccount accountName isSigner isWritable ∧
      raws[i]? = some raw ∧
      resolveAccountRaw env accountName raw mint = .ok (keyPair, meta.pubkey, nAdds, mint') ∧
      meta.isSigner = isSigner ∧ meta.isWritable = isWritable ∧
      (isSigner = true → ∃ kp, keyPair = some kp ∧ sAdds = [kp]) ∧
      (isSigner = false → sAdds = []) := by
  cases item with
  | IdlAccounts => exact absurd h (by simp [resolveAccountStep])
  | IdlAccount accountName isSigner isWritable =>
      unfold resolveAccountStep at h
      cases hget : raws[i]? with
      | none => simp only [hget] at h; exact Except.noConfusion h
      | some raw =>
          simp only [hget] at h
          cases hr : resolveAccountRaw env accountName raw mint with
          | error e => simp only [hr] at h; exact Except.noConfusion h
          | ok q =>
              obtain ⟨keyPair, pk, news, mint2⟩ := q
              simp only [hr] at h
              cases isSigner with
              | false =>
                  simp only [Bool.false_eq_true, reduceIte] at h
                  simp only [Except.ok.injEq, Prod.mk.injEq] at h
                  obtain ⟨hm, hs, hn, hm2⟩ := h
                  subst hm
                  subst hs
                  subst hn
                  subst hm2
                  refine ⟨accountName, false, isWritable, raw, keyPair, ?_, ?_, ?_, ?_, ?_, ?_, ?_⟩
                  · rfl
                  · rfl
                  · exact hr
                  · rfl
                  · rfl
                  · intro hc; exact absurd hc (by decide)
                  · intro _; rfl
              | true =>
                  simp only [reduceIte] at h
                  cases keyPair with
                  | none => exact Except.noConfusion h
                  | some kp =>
                      simp only [Except.ok.injEq, Prod.mk.injEq] at h
                      obtain ⟨hm, hs, hn, hm2⟩ := h
                      subst hm
                      subst hs
                      subst hn
                      subst hm2
                      refine ⟨accountName, true, isWritable, raw, some kp, ?_, ?_, ?_, ?_, ?_, ?_, ?_⟩
                      · rfl
                      · rfl
                      · exact hr
                      · rfl
                      · rfl
                      · intro _; exact ⟨kp, rfl, rfl⟩
                      · intro hc; exact absurd hc (by decide)

/-- The account loop can never succeed while the raw account list is too
short. -/
theorem accountsLoop_short (env : SolanaEnv) :
    ∀ (items : List IdlAccountItem) (raws : List String) (i mint : Nat),
      i ≤ raws.length → raws.length < i + items.length →
      ∀ res, accountsLoop env items raws i mint ≠ .ok res := by
  intro items
  induction items with
  | nil => intro raws i mint hle hlt res; simp at hlt; omega
  | cons item rest ih =>
      intro raws i mint hle hlt res h
      unfold accountsLoop at h
      cases hstep : resolveAccountStep env item raws i mint with
      | error e => simp only [hstep] at h; exact Except.noConfusion h
      | ok q =>
          obtain ⟨meta, sAdds, nAdds, mint'⟩ := q
          obtain ⟨_, _, _, raw, _, _, hget, _⟩ :=
            resolveAccountStep_ok_inv env item raws i mint meta sAdds nAdds mint' hstep
          have hi : i < raws.length := by
            by_contra hc
            push_neg at hc
            rw [List.getElem?_eq_none_iff.mpr hc] at hget
            cases hget
          simp only [hstep] at h
          cases hrest : accountsLoop env rest raws (i + 1) mint' with
          | error e => simp only [hrest] at h; exact Except.noConfusion h
          | ok r =>
              have hlt' : raws.length < (i + 1) + rest.length := by simp at hlt; omega
              exact ih raws (i + 1) mint' (by omega) hlt' r hrest

theorem resolveAccountRaw_ok_news_length (env : SolanaEnv) (accountName raw : String)
    (mint : Nat) (keyPair : Option Keypair) (pk : String) (news : List (String × String))
    (mint' : Nat) (h : resolveAccountRaw env accountName raw mint = .ok (keyPair, pk, news, mint')) :
    news.length = if raw = "new" then 1 else 0 := by
  unfold resolveAccountRaw at h
  by_cases h1 : raw = "new"
  · simp only [h1, reduceIte] at h ⊢
    cases hw : env.writeOk (accountName ++ "-" ++ (env.fresh mint).pubkey ++ ".json") with
    | false => rw [hw] at h; simp at h
    | true =>
        rw [hw] at h
        simp only [if_true, Except.ok.injEq, Prod.mk.injEq] at h
        simp [← h.2.2.1]
  · simp only [h1, reduceIte] at h ⊢
    by_cases h2 : raw = "self"
    · simp only [h2, reduceIte] at h
      cases hcf : env.configFile with
      | none => simp only [hcf] at h; exact Except.noConfusion h
      | some cf =>
          simp only [hcf] at h
          cases hkp : env.readKeypairFile ((env.loadConfig cf).getD env.defaultKeypairPath) with
          | none => simp only [hkp] at h; exact Except.noConfusion h
          | some kp =>
              simp only [hkp] at h
              simp only [Except.ok.injEq, Prod.mk.injEq] at h
              simp [← h.2.2.1]
    · simp only [h2, reduceIte] at h
      by_cases h3 : raw = "system"
      · simp only [h3, reduceIte] at h
        simp only [Except.ok.injEq, Prod.mk.injEq] at h
        simp [← h.2.2.1]
      · simp only [h3, reduceIte] at h
        cases hkp : env.readKeypairFile raw with
        | some kp =>
            simp only [hkp] at h
            simp only [Except.ok.injEq, Prod.mk.injEq] at h
            simp [← h.2.2.1]
        | none =>
            simp only [hkp] at h
            cases hpp : env.parsePubkey raw with
            | some pk2 =>
                simp only [hpp] at h
                simp only [Except.ok.injEq, Prod.mk.injEq] at h
                simp [← h.2.2.1]
            | none => simp only [hpp] at h; exact Except.noConfusion h

theorem accountsLoop_lengths (env : SolanaEnv) :
    ∀ (items : List IdlAccountItem) (raws : List String) (i mint : Nat)
      (metas : List AccountMeta) (sgs : List Keypair) (news : List (String × String)),
      accountsLoop env items raws i mint = .ok (metas, sgs, news) →
      metas.length = items.length ∧ sgs.length = countSigners items ∧
        news.length = countNews raws items i := by
  intro items
  induction items with
  | nil =>
      intro raws i mint metas sgs news h
      simp only [accountsLoop, Except.ok.injEq, Prod.mk.injEq] at h
      obtain ⟨hm, hs, hn⟩ := h
      rw [← hm, ← hs, ← hn]
      exact ⟨rfl, rfl, rfl⟩
  | cons it rest ih =>
      intro raws i mint metas sgs news h
      unfold accountsLoop at h
      cases hstep : resolveAccountStep env it raws i mint with
      | error e => simp only [hstep] at h; exact Except.noConfusion h
      | ok q =>
          obtain ⟨meta, sAdds, nAdds, mint'⟩ := q
          simp only [hstep] at h
          cases hrest : accountsLoop env rest raws (i + 1) mint' with
          | error e => simp only [hrest] at h; exact Except.noConfusion h
          | ok r =>
              obtain ⟨ms, ss, ns⟩ := r
              simp only [hrest, Except.ok.injEq, Prod.mk.injEq] at h
              obtain ⟨hm, hs, hn⟩ := h
              subst hm; subst hs; subst hn
              obtain ⟨accountName, isS, isMut, raw, keyPair, hitem, hget, hr, _, _, himp1, himp2⟩ :=
                resolveAccountStep_ok_inv env it raws i mint meta sAdds nAdds mint' hstep
              subst hitem
              obtain ⟨ihm, ihs, ihn⟩ := ih raws (i + 1) mint' ms ss ns hrest
              refine ⟨by simp [ihm], ?_, ?_⟩
              · have hsl : sAdds.length = if isS then 1 else 0 := by
                  cases isS with
                  | true => obtain ⟨kp, _, hsa⟩ := himp1 rfl; rw [hsa]; rfl
                  | false => rw [himp2 rfl]; rfl
                simp only [countSigners, List.length_append, hsl, ihs]
              · have hnl : nAdds.length = if raws[i]? = some "new" then 1 else 0 := by
                  rw [resolveAccountRaw_ok_news_length env accountName raw mint keyPair
                    meta.pubkey nAdds mint' hr, hget]
                  simp only [Option.some.injEq]
                simp only [countNews, List.length_append, hnl, ihn]

theorem accountsLoop_get_spec (env : SolanaEnv) :
    ∀ (items : List IdlAccountItem) (raws : List String) (i mint : Nat)
      (metas : List AccountMeta) (sgs : List Keypair) (news : List (String × String)),
      accountsLoop env items raws i mint = .ok (metas, sgs, news) →
      ∀ (j : Nat) (item : IdlAccountItem), items[j]? = some item →
        ∃ mint1 meta sAdds nAdds mint2,
          resolveAccountStep env item raws (i + j) mint1 = .ok (meta, sAdds, nAdds, mint2) ∧
          metas[j]? = some meta ∧
          (∀ x ∈ sAdds, x ∈ sgs) ∧ (∀ x ∈ nAdds, x ∈ news) := by
  intro items
  induction items with
  | nil => intro raws i mint metas sgs news h j item hj; simp at hj
  | cons it rest ih =>
      intro raws i mint metas sgs news h j item hj
      unfold accountsLoop at h
      cases hstep : resolveAccountStep env it raws i mint with
      | error e => simp only [hstep] at h; exact Except.noConfusion h
      | ok q =>
          obtain ⟨meta, sAdds, nAdds, mint'⟩ := q
          simp only [hstep] at h
          cases hrest : accountsLoop env rest raws (i + 1) mint' with
          | error e => simp only [hrest] at h; exact Except.noConfusion h
          | ok r =>
              obtain ⟨ms, ss, ns⟩ := r
              simp only [hrest, Except.ok.injEq, Prod.mk.injEq] at h
              obtain ⟨hm, hs, hn⟩ := h
              subst hm; subst hs; subst hn
              cases j with
              | zero =>
                  have hit : item = it := by simpa using hj.symm
                  subst hit
                  exact ⟨mint, meta, sAdds, nAdds, mint', hstep, by simp,
                    fun x hx => List.mem_append_left _ hx,
                    fun x hx => List.mem_append_left _ hx⟩
              | succ j' =>
                  have hj' : rest[j']? = some item := by simpa using hj
                  obtain ⟨m1, me, sa, na, m2, h1, h2, h3, h4⟩ :=
                    ih raws (i + 1) mint' ms ss ns hrest j' item hj'
                  refine ⟨m1, me, sa, na, m2, ?_, by simpa using h2,
                    fun x hx => List.mem_append_right _ (h3 x hx),
                    fun x hx => List.mem_append_right _ (h4 x hx)⟩
                  rw [show i + (j' + 1) = (i + 1) + j' by omega]
                  exact h1

theorem resolveAccountStep_system_plain (env : SolanaEnv) (accountName : String) (isMut : Bool)
    (raws : List String) (i mint : Nat) (hget : raws[i]? = some "system") :
    resolveAccountStep env (.IdlAccount accountName false isMut) raws i mint =
      .ok (⟨systemProgramId, false, isMut⟩, [], [], mint) := by
  unfold resolveAccountStep
  simp only [hget, resolveAccountRaw_system, Bool.false_eq_true, reduceIte]

theorem resolveAccountStep_system_signer (env : SolanaEnv) (accountName : String) (isMut : Bool)
    (raws : List String) (i mint : Nat) (hget : raws[i]? = some "system") :
    resolveAccountStep env (.IdlAccount accountName true isMut) raws i mint =
      .error (.err (invalidKeyOrPathMsg accountName "system")) := by
  unfold resolveAccountStep
  simp only [hget, resolveAccountRaw_system, reduceIte]

theorem resolveAccountStep_new_ok (env : SolanaEnv) (accountName : String) (isS isMut : Bool)
    (raws : List String) (i mint : Nat) (hget : raws[i]? = some "new")
    (hw : env.writeOk (accountName ++ "-" ++ (env.fresh mint).pubkey ++ ".json") = true) :
    resolveAccountStep env (.IdlAccount accountName isS isMut) raws i mint =
      .ok (⟨(env.fresh mint).pubkey, isS, isMut⟩, if isS then [env.fresh mint] else [],
        [((env.fresh mint).pubkey, accountName ++ "-" ++ (env.fresh mint).pubkey ++ ".json")],
        mint + 1) := by
  unfold resolveAccountStep resolveAccountRaw
  simp only [hget, reduceIte, hw]
  cases isS with
  | true => simp
  | false => simp

theorem resolveAccountStep_new_fail (env : SolanaEnv) (accountName : String) (isS isMut : Bool)
    (raws : List String) (i mint : Nat) (hget : raws[i]? = some "new")
    (hw : env.writeOk (accountName ++ "-" ++ (env.fresh mint).pubkey ++ ".json") = false) :
    resolveAccountStep env (.IdlAccount accountName isS isMut) raws i mint =
      .error (.err "Couldn't write keypair file to disk") := by
  unfold resolveAccountStep resolveAccountRaw
  simp [hget, hw]

theorem resolveAccountRaw_new_inv (env : SolanaEnv) (accountName : String) (mint : Nat)
    (keyPair : Option Keypair) (pk : String) (news : List (String × String)) (mint' : Nat)
    (h : resolveAccountRaw env accountName "new" mint = .ok (keyPair, pk, news, mint')) :
    keyPair = some (env.fresh mint) ∧ pk = (env.fresh mint).pubkey ∧
      news = [(pk, accountName ++ "-" ++ pk ++ ".json")] ∧ mint' = mint + 1 := by
  unfold resolveAccountRaw at h
  simp only [reduceIte] at h
  cases hw : env.writeOk (accountName ++ "-" ++ (env.fresh mint).pubkey ++ ".json") with
  | false => simp only [hw, Bool.false_eq_true, reduceIte] at h; exact Except.noConfusion h
  | true =>
      simp only [hw, if_true, Except.ok.injEq, Prod.mk.injEq] at h
      obtain ⟨h1, h2, h3, h4⟩ := h
      subst h2
      exact ⟨h1.symm, rfl, h3.symm, h4.symm⟩

theorem resolveAccountStep_self_noconfig (env : SolanaEnv) (accountName : String)
    (isS isMut : Bool) (raws : List String) (i mint : Nat) (hget : raws[i]? = some "self")
    (hcf : env.configFile = none) :
    resolveAccountStep env (.IdlAccount accountName isS isMut) raws i mint =
      .error (.panicked "called `Option::unwrap()` on a `None` value") := by
  unfold resolveAccountStep resolveAccountRaw
  simp [hget, hcf]

theorem resolveAccountStep_self_readfail (env : SolanaEnv) (accountName : String)
    (isS isMut : Bool) (raws : List String) (i mint : Nat) (cf : String)
    (hget : raws[i]? = some "self") (hcf : env.configFile = some cf)
    (hkp : env.readKeypairFile ((env.loadConfig cf).getD env.defaultKeypairPath) = none) :
    resolveAccountStep env (.IdlAccount accountName isS isMut) raws i mint =
      .error (.panicked "called `Result::unwrap()` on an `Err` value") := by
  unfold resolveAccountStep resolveAccountRaw
  simp [hget, hcf, hkp]

theorem resolveAccountStep_self_ok (env : SolanaEnv) (accountName : String)
    (isS isMut : Bool) (raws : List String) (i mint : Nat) (cf : String) (kp : Keypair)
    (hget : raws[i]? = some "self") (hcf : env.configFile = some cf)
    (hkp : env.readKeypairFile ((env.loadConfig cf).getD env.defaultKeypairPath) = some kp) :
    resolveAccountStep env (.IdlAccount accountName isS isMut) raws i mint =
      .ok (⟨kp.pubkey, isS, isMut⟩, if isS then [kp] else [], [], mint) := by
  unfold resolveAccountStep resolveAccountRaw
  simp [hget, hcf, hkp]
  cases isS with
  | true => simp
  | false => simp
theorem encodeArgsLoop_short (env : EncEnv) (customTypes : List IdlTypeDefinition)
    (fuel : Nat) :
    ∀ (args : List IdlField) (rawArgs : List String) (i : Nat),
      i ≤ rawArgs.length → rawArgs.length < i + args.length →
      ∀ out, encodeArgsLoop env customTypes fuel args rawArgs i ≠ .ok out := by
  intro args
  induction args with
  | nil => intro raws i hle hlt out; simp at hlt; omega
  | cons a rest ih =>
      intro raws i hle hlt out h
      unfold encodeArgsLoop at h
      cases hget : raws[i]? with
      | none => simp only [hget] at h; exact Except.noConfusion h
      | some v =>
          have hi : i < raws.length := by
            by_contra hc
            push_neg at hc
            rw [List.getElem?_eq_none_iff.mpr hc] at hget
            cases hget
          simp only [hget] at h
          cases hb : getBorshTokenVector env customTypes fuel v a.ty with
          | error e => simp only [hb] at h; exact Except.noConfusion h
          | ok ts =>
              simp only [hb] at h
              cases hrest : encodeArgsLoop env customTypes fuel rest raws (i + 1) with
              | error e => simp only [hrest] at h; exact Except.noConfusion h
              | ok ts' =>
                  have hlt' : raws.length < (i + 1) + rest.length := by
                    simp at hlt; omega
                  exact ih raws (i + 1) (by omega) hlt' ts' hrest

theorem encodeArgsLoop_take (env : EncEnv) (customTypes : List IdlTypeDefinition)
    (fuel : Nat) :
    ∀ (args : List IdlField) (rawArgs : List String) (i n : Nat),
      i + args.length ≤ n →
      encodeArgsLoop env customTypes fuel args (rawArgs.take n) i =
        encodeArgsLoop env customTypes fuel args rawArgs i := by
  intro args
  induction args with
  | nil => intro raws i n hn; rfl
  | cons a rest ih =>
      intro raws i n hn
      have hi : i < n := by simp at hn; omega
      unfold encodeArgsLoop
      rw [List.getElem?_take_of_lt hi]
      cases hget : raws[i]? with
      | none => simp only [hget]
      | some v =>
          simp only [hget]
          cases hb : getBorshTokenVector env customTypes fuel v a.ty with
          | error e => simp only [hb]
          | ok ts =>
              simp only [hb]
              rw [ih raws (i + 1) n (by simp at hn; omega)]

/-- The account loop reads its raw list only at positions below
`i + items.length`, so truncating the list there changes nothing. -/
theorem accountsLoop_take (env : SolanaEnv) :
    ∀ (items : List IdlAccountItem) (rawArgs : List String) (i mint n : Nat),
      i + items.length ≤ n →
      accountsLoop env items (rawArgs.take n) i mint =
        accountsLoop env items rawArgs i mint := by
  intro items
  induction items with
  | nil => intro raws i mint n hn; rfl
  | cons item rest ih =>
      intro raws i mint n hn
      have hi : i < n := by simp at hn; omega
      unfold accountsLoop
      have hstep : resolveAccountStep env item (raws.take n) i mint =
          resolveAccountStep env item raws i mint := by
        unfold resolveAccountStep
        cases item with
        | IdlAccounts => rfl
        | IdlAccount accountName isSigner isWritable =>
            rw [List.getElem?_take_of_lt hi]
      rw [hstep]
      cases hs : resolveAccountStep env item raws i mint with
      | error e => simp only [hs]
      | ok q =>
          obtain ⟨meta, sAdds, nAdds, mint2⟩ := q
          simp only [hs]
          rw [ih raws (i + 1) mint2 n (by simp at hn; omega)]

theorem BorshTokenList.length_append :
    ∀ (xs ys : BorshTokenList), (xs ++ ys).length = xs.length + ys.length
  | .nil, ys => by
      show ys.length = BorshTokenList.nil.length + ys.length
      show ys.length = 0 + ys.length
      omega
  | .cons t ts, ys => by
      show (ts ++ ys).length + 1 = (ts.length + 1) + ys.length
      have h := BorshTokenList.length_append ts ys
      omega

theorem splitCharList_ne_nil (cs : List Char) : splitCharList cs ≠ [] := by
  induction cs with
  | nil => simp [splitCharList]
  | cons c rest ih =>
      unfold splitCharList
      cases h : splitCharList rest with
      | nil => exact absurd h ih
      | cons g gs =>
          by_cases hc : c = ','
          · simp [hc]
          · simp [hc]

theorem splitCommas_length_pos (s : String) : 1 ≤ (splitCommas s).length := by
  have h := splitCharList_ne_nil s.data
  have : (splitCharList s.data).length ≠ 0 := fun hz => h (List.eq_nil_of_length_eq_zero hz)
  simp only [splitCommas, List.length_map]
  omega

set_option maxRecDepth 4000 in
theorem parse_toString_u8 : ∀ n, n < 256 → rustParseUnsigned (toString n) 255 = some n := by
  decide

theorem encodeElems_length_of_single (env : EncEnv) (customTypes : List IdlTypeDefinition) :
    ∀ (vals : List String) (fuel : Nat) (elemTy : IdlType) (elems : BorshTokenList),
      encodeElems env customTypes fuel vals elemTy = .ok elems →
      (∀ (v : String) (f : Nat) (ts : BorshTokenList), v ∈ vals →
        getBorshTokenVector env customTypes f v elemTy = .ok ts → ts.length = 1) →
      elems.length = vals.length := by
  intro vals
  induction vals with
  | nil =>
      intro fuel elemTy elems h _
      cases fuel with
      | zero => exact absurd h (by simp [encodeElems])
      | succ f =>
          simp only [encodeElems, Except.ok.injEq] at h
          rw [← h]
          rfl
  | cons v rest ih =>
      intro fuel elemTy elems h hsingle
      cases fuel with
      | zero => exact absurd h (by simp [encodeElems])
      | succ f =>
          unfold encodeElems at h
          cases hts : getBorshTokenVector env customTypes f v elemTy with
          | error e => simp only [hts] at h; exact Except.noConfusion h
          | ok ts =>
              simp only [hts] at h
              cases hrest : encodeElems env customTypes f rest elemTy with
              | error e => simp only [hrest] at h; exact Except.noConfusion h
              | ok ts2 =>
                  simp only [hrest, Except.ok.injEq] at h
                  rw [← h, BorshTokenList.length_append,
                    hsingle v f ts (List.mem_cons_self v rest) hts,
                    ih f elemTy ts2 hrest
                      (fun w g tw hw hgw => hsingle w g tw (List.mem_cons_of_mem v hw) hgw)]
                  simp only [List.length_cons]
                  omega

theorem encodeElems_length_ge (env : EncEnv) (customTypes : List IdlTypeDefinition) :
    ∀ (vals : List String) (fuel : Nat) (elemTy : IdlType) (elems : BorshTokenList),
      encodeElems env customTypes fuel vals elemTy = .ok elems →
      (∀ (v : String) (f : Nat) (ts : BorshTokenList), v ∈ vals →
        getBorshTokenVector env customTypes f v elemTy = .ok ts → 1 ≤ ts.length) →
      vals.length ≤ elems.length := by
  intro vals
  induction vals with
  | nil => intro fuel elemTy elems _ _; simp
  | cons v rest ih =>
      intro fuel elemTy elems h hone
      cases fuel with
      | zero => exact absurd h (by simp [encodeElems])
      | succ f =>
          unfold encodeElems at h
          cases hts : getBorshTokenVector env customTypes f v elemTy with
          | error e => simp only [hts] at h; exact Except.noConfusion h
          | ok ts =>
              simp only [hts] at h
              cases hrest : encodeElems env customTypes f rest elemTy with
              | error e => simp only [hrest] at h; exact Except.noConfusion h
              | ok ts2 =>
                  simp only [hrest, Except.ok.injEq] at h
                  have h1 := hone v f ts (List.mem_cons_self v rest) hts
                  have h2 := ih f elemTy ts2 hrest
                    (fun w g tw hw hgw => hone w g tw (List.mem_cons_of_mem v hw) hgw)
                  rw [← h, BorshTokenList.length_append]
                  simp only [List.length_cons]
                  omega

/-! ### C2 -/

/-- C2 counterexample: a descriptor whose signer flag is set, resolved with
the raw string `"system"`, makes the whole resolution fail with the
invalid-key error — it does not succeed without a signer as claimed. -/
theorem c2_system_signer_counterexample :
    constructInstructionAccounts benignEnv sysSignerInstr ["system"] =
      .error (.err (invalidKeyOrPathMsg "acc" "system")) := by decide

/-- C2 (amended): for the raw string `"system"` the resolver uses the
well-known system-program address and produces no Signer-list entry; if the
descriptor's signer flag is clear the step succeeds with no signer and no
new account, but if the flag is set resolution fails with the
invalid-key-or-path error instead of succeeding.  On any successful full
resolution the Signer list has exactly one entry per signer-flagged
descriptor, and every position resolved with `"system"` has a clear signer
flag and the system-program address in its record. -/
theorem c2_system_account_resolution :
    (∀ (env : SolanaEnv) (accountName : String) (isMut : Bool) (raws : List String)
       (i mint : Nat), raws[i]? = some "system" →
       resolveAccountStep env (.IdlAccount accountName false isMut) raws i mint =
         .ok (⟨systemProgramId, false, isMut⟩, [], [], mint)) ∧
    (∀ (env : SolanaEnv) (accountName : String) (isMut : Bool) (raws : List String)
       (i mint : Nat), raws[i]? = some "system" →
       resolveAccountStep env (.IdlAccount accountName true isMut) raws i mint =
         .error (.err (invalidKeyOrPathMsg accountName "system"))) ∧
    (∀ (env : SolanaEnv) (instr : IdlInstruction) (raws : List String)
       (metas : List AccountMeta) (sgs : List Keypair) (news : List (String × String)),
       constructInstructionAccounts env instr raws = .ok (metas, sgs, news) →
       sgs.length = countSigners instr.accounts ∧
       ∀ (j : Nat) (accountName : String) (isS isMut : Bool),
         instr.accounts[j]? = some (.IdlAccount accountName isS isMut) →
         raws[j]? = some "system" →
         isS = false ∧ metas[j]? = some ⟨systemProgramId, false, isMut⟩) := by
  refine ⟨resolveAccountStep_system_plain, resolveAccountStep_system_signer, ?_⟩
  intro env instr raws metas sgs news h
  unfold constructInstructionAccounts at h
  refine ⟨(accountsLoop_lengths env instr.accounts raws 0 0 metas sgs news h).2.1, ?_⟩
  intro j accountName isS isMut hacc hraw
  obtain ⟨mint1, meta, sAdds, nAdds, mint2, hstep, hmeta, _, _⟩ :=
    accountsLoop_get_spec env instr.accounts raws 0 0 metas sgs news h j _ hacc
  rw [Nat.zero_add] at hstep
  cases isS with
  | true =>
      rw [resolveAccountStep_system_signer env accountName isMut raws j mint1 hraw] at hstep
      exact Except.noConfusion hstep
  | false =>
      rw [resolveAccountStep_system_plain env accountName isMut raws j mint1 hraw] at hstep
      simp only [Except.ok.injEq, Prod.mk.injEq] at hstep
      obtain ⟨hm, _, _, _⟩ := hstep
      exact ⟨rfl, by rw [hmeta, ← hm]⟩

/-- Witness for C2's amended theorem: a non-signer descriptor resolved with
`"system"` yields the system-program record, no signer, no new account. -/
theorem c2_system_account_resolution_witness :
    resolveAccountStep benignEnv (.IdlAccount "acc" false true) ["system"] 0 0 =
      .ok (⟨systemProgramId, false, true⟩, [], [], 0) :=
  c2_system_account_resolution.1 benignEnv "acc" true ["system"] 0 0 (by decide)

/-! ### C3 -/

/-- C3 counterexample: an instruction declaring zero arguments, given one
raw argument, encodes successfully (the extra argument is ignored), so a
supplied count different from the declared count does not always fail. -/
theorem c3_overfull_counterexample :
    (["extra"] : List String).length ≠ noArgsNew.args.length ∧
    constructInstructionData encEnv0 9 noArgsNew ["extra"] [] =
      .ok (discriminator "global" "new") := by
  constructor
  · decide
  · decide

/-- C3 (amended): when fewer raw arguments are supplied than declared,
`construct_instruction_data` never succeeds (it fails with MissingArgument
naming the first argument without a raw string when the supplied prefix
encodes cleanly), and likewise `construct_instruction_accounts` never
succeeds on a short account list (MissingAccount); raw entries beyond the
declared count are ignored by both calls, so a longer list encodes — and
resolves — exactly like its declared-length prefix, as the over-supplied
concrete resolve instance also shows. -/
theorem c3_count_checks :
    (∀ (env : EncEnv) (fuel : Nat) (instr : IdlInstruction) (rawArgs : List String)
       (customTypes : List IdlTypeDefinition), rawArgs.length < instr.args.length →
       ∀ out, constructInstructionData env fuel instr rawArgs customTypes ≠ .ok out) ∧
    (∀ (env : SolanaEnv) (instr : IdlInstruction) (rawArgs : List String),
       rawArgs.length < instr.accounts.length →
       ∀ res, constructInstructionAccounts env instr rawArgs ≠ .ok res) ∧
    (∀ (env : EncEnv) (fuel : Nat) (instr : IdlInstruction) (rawArgs : List String)
       (customTypes : List IdlTypeDefinition), instr.args.length ≤ rawArgs.length →
       constructInstructionData env fuel instr (rawArgs.take instr.args.length) customTypes =
         constructInstructionData env fuel instr rawArgs customTypes) ∧
    (∀ (env : SolanaEnv) (instr : IdlInstruction) (rawArgs : List String),
       instr.accounts.length ≤ rawArgs.length →
       constructInstructionAccounts env instr (rawArgs.take instr.accounts.length) =
         constructInstructionAccounts env instr rawArgs) ∧
    constructInstructionData encEnv0 9 twoBoolNew ["true"] [] =
      .error (.err "Missing argument b") ∧
    constructInstructionAccounts benignEnv twoAccInstr ["system"] =
      .error (.err "Missing account: b") ∧
    constructInstructionAccounts benignEnv sysPlainInstr ["system", "extra"] =
      .ok ([⟨systemProgramId, false, true⟩], [], []) := by
  refine ⟨?_, ?_, ?_, ?_, by decide, by decide, by decide⟩
  · intro env fuel instr rawArgs customTypes hlt out h
    unfold constructInstructionData at h
    cases hs : encodeArgsLoop env customTypes fuel instr.args rawArgs 0 with
    | error e => simp only [hs] at h; exact Except.noConfusion h
    | ok args =>
        exact encodeArgsLoop_short env customTypes fuel instr.args rawArgs 0
          (by omega) (by omega) args hs
  · intro env instr rawArgs hlt res h
    unfold constructInstructionAccounts at h
    exact accountsLoop_short env instr.accounts rawArgs 0 0 (by omega) (by omega) res h
  · intro env fuel instr rawArgs customTypes hle
    unfold constructInstructionData
    rw [encodeArgsLoop_take env customTypes fuel instr.args rawArgs 0 instr.args.length
      (by omega)]
  · intro env instr rawArgs hle
    unfold constructInstructionAccounts
    exact accountsLoop_take env instr.accounts rawArgs 0 0 instr.accounts.length (by omega)

/-- Witness for C3's amended theorem: one raw argument against two declared
bool arguments cannot encode successfully. -/
theorem c3_count_checks_witness :
    constructInstructionData encEnv0 9 twoBoolNew ["true"] [] ≠ .ok [] :=
  c3_count_checks.1 encEnv0 9 twoBoolNew ["true"] [] (by decide) []

/-! ### C8 -/

/-- C8: resolving the raw string `"new"` mints the next fresh keypair,
persists it to `<accountName>-<pubkey>.json` (a failed write aborts the
resolve with the I/O error), and pushes exactly one New-Accounts entry
whose pubkey is the pubkey of the emitted record; on a successful full
resolution the New-Accounts list has exactly one entry per `"new"`
position, and each such position's record pubkey appears in it paired with
its keypair-file path. -/
theorem c8_new_account_resolution :
    (∀ (env : SolanaEnv) (accountName : String) (isS isMut : Bool) (raws : List String)
       (i mint : Nat), raws[i]? = some "new" →
       env.writeOk (accountName ++ "-" ++ (env.fresh mint).pubkey ++ ".json") = true →
       resolveAccountStep env (.IdlAccount accountName isS isMut) raws i mint =
         .ok (⟨(env.fresh mint).pubkey, isS, isMut⟩, if isS then [env.fresh mint] else [],
           [((env.fresh mint).pubkey, accountName ++ "-" ++ (env.fresh mint).pubkey ++ ".json")],
           mint + 1)) ∧
    (∀ (env : SolanaEnv) (accountName : String) (isS isMut : Bool) (raws : List String)
       (i mint : Nat), raws[i]? = some "new" →
       env.writeOk (accountName ++ "-" ++ (env.fresh mint).pubkey ++ ".json") = false →
       resolveAccountStep env (.IdlAccount accountName isS isMut) raws i mint =
         .error (.err "Couldn't write keypair file to disk")) ∧
    (∀ (env : SolanaEnv) (instr : IdlInstruction) (raws : List String)
       (metas : List AccountMeta) (sgs : List Keypair) (news : List (String × String)),
       constructInstructionAccounts env instr raws = .ok (metas, sgs, news) →
       news.length = countNews raws instr.accounts 0 ∧
       ∀ (j : Nat) (accountName : String) (isS isMut : Bool),
         instr.accounts[j]? = some (.IdlAccount accountName isS isMut) →
         raws[j]? = some "new" →
         ∃ pk, metas[j]? = some ⟨pk, isS, isMut⟩ ∧
           (pk, accountName ++ "-" ++ pk ++ ".json") ∈ news) ∧
    constructInstructionAccounts envNoWrite newAccInstr ["new"] =
      .error (.err "Couldn't write keypair file to disk") := by
  refine ⟨resolveAccountStep_new_ok, resolveAccountStep_new_fail, ?_, by decide⟩
  intro env instr raws metas sgs news h
  unfold constructInstructionAccounts at h
  refine ⟨(accountsLoop_lengths env instr.accounts raws 0 0 metas sgs news h).2.2, ?_⟩
  intro j accountName isS isMut hacc hraw
  obtain ⟨mint1, meta, sAdds, nAdds, mint2, hstep, hmeta, _, hsubn⟩ :=
    accountsLoop_get_spec env instr.accounts raws 0 0 metas sgs news h j _ hacc
  rw [Nat.zero_add] at hstep
  obtain ⟨name2, isS2, isMut2, raw2, kp2, hitem, hget2, hr2, hms, hmw, _, _⟩ :=
    resolveAccountStep_ok_inv env _ raws j mint1 meta sAdds nAdds mint2 hstep
  injection hitem with e1 e2 e3
  subst e1; subst e2; subst e3
  rw [hget2] at hraw
  injection hraw with hraw
  subst hraw
  obtain ⟨hk, hpk, hnews, hm2⟩ := resolveAccountRaw_new_inv env accountName mint1 kp2
    meta.pubkey nAdds mint2 hr2
  refine ⟨meta.pubkey, ?_, ?_⟩
  · rw [hmeta]
    obtain ⟨mp, msig, mwrit⟩ := meta
    simp only at hms hmw ⊢
    rw [hms, hmw]
  · exact hsubn _ (by rw [hnews]; exact List.mem_singleton.mpr rfl)

/-- Witness for C8: a signer-flagged descriptor named `dataAccount`
resolved with `"new"` in an environment whose first minted keypair has
pubkey `new-pk-0` produces that record, that signer, and that single
New-Accounts entry. -/
theorem c8_new_account_resolution_witness :
    resolveAccountStep benignEnv (.IdlAccount "dataAccount" true true) ["new"] 0 0 =
      .ok (⟨"new-pk-0", true, true⟩, [⟨"new-pk-0"⟩],
        [("new-pk-0", "dataAccount-new-pk-0.json")], 1) :=
  c8_new_account_resolution.1 benignEnv "dataAccount" true true ["new"] 0 0 rfl rfl

/-! ### C9 -/

/-- C9 counterexample: with a loadable-but-empty configuration (so the
default keypair path is used) and an unreadable default keypair file,
resolving `"self"` ends in a Rust panic (`unwrap`, the `SolErr.panicked`
outcome), not an ordinary error return (`SolErr.err`) of the resolve
call as the claim states. -/
theorem c9_self_panic_counterexample :
    constructInstructionAccounts envSelfBad selfAccInstr ["self"] =
      .error (.panicked "called `Result::unwrap()` on an `Err` value") := by
  decide

/-- C9 (amended): for the raw string `"self"`, an absent configuration-file
path panics (`Option::unwrap`), an unreadable keypair file at the
configured-or-default path panics (`Result::unwrap`) — both abort the
process rather than returning an ordinary error — while a config-load
failure alone is silently replaced by the default keypair path, and a
readable keypair resolves successfully. -/
theorem c9_self_keyword_failure_modes :
    (∀ (env : SolanaEnv) (accountName : String) (isS isMut : Bool) (raws : List String)
       (i mint : Nat), raws[i]? = some "self" → env.configFile = none →
       resolveAccountStep env (.IdlAccount accountName isS isMut) raws i mint =
         .error (.panicked "called `Option::unwrap()` on a `None` value")) ∧
    (∀ (env : SolanaEnv) (accountName : String) (isS isMut : Bool) (raws : List String)
       (i mint : Nat) (cf : String), raws[i]? = some "self" → env.configFile = some cf →
       env.readKeypairFile ((env.loadConfig cf).getD env.defaultKeypairPath) = none →
       resolveAccountStep env (.IdlAccount accountName isS isMut) raws i mint =
         .error (.panicked "called `Result::unwrap()` on an `Err` value")) ∧
    (∀ (env : SolanaEnv) (accountName : String) (isS isMut : Bool) (raws : List String)
       (i mint : Nat) (cf : String) (kp : Keypair), raws[i]? = some "self" →
       env.configFile = some cf →
       env.readKeypairFile ((env.loadConfig cf).getD env.defaultKeypairPath) = some kp →
       resolveAccountStep env (.IdlAccount accountName isS isMut) raws i mint =
         .ok (⟨kp.pubkey, isS, isMut⟩, if isS then [kp] else [], [], mint)) := by
  exact ⟨resolveAccountStep_self_noconfig, resolveAccountStep_self_readfail,
    resolveAccountStep_self_ok⟩

/-- Witness for C9's amended theorem at the concrete failing environment:
the unreadable default keypair makes the `"self"` step panic. -/
theorem c9_self_keyword_failure_modes_witness :
    resolveAccountStep envSelfBad (.IdlAccount "payer" true true) ["self"] 0 0 =
      .error (.panicked "called `Result::unwrap()` on an `Err` value") :=
  c9_self_keyword_failure_modes.2.1 envSelfBad "payer" true true ["self"] 0 0 "cfg"
    rfl rfl rfl

/-! ### C4 -/

/-- C4: encoding `new(Person)` with the JSON argument for Alice yields the
discriminator, the little-endian length prefix `[7,0,0,0]`, the seven UTF-8
bytes of the JSON-quoted text (including both quote characters, byte 34),
the age byte `[30]`, and the variant-index byte `0` for `"Red"`; and a
String-typed argument is tokenized verbatim (no additional decoding), its
wire form being a 4-byte little-endian length prefix plus UTF-8 bytes. -/
theorem c4_struct_encoding :
    constructInstructionData encEnv0 19 definedTypesNew
      ["\x7b\"name\":\"Alice\",\"age\":30,\"favoriteColor\":\"Red\"\x7d"]
      [personDef, colorDef] =
      .ok (discriminator "global" "new" ++
        [7, 0, 0, 0, 34, 65, 108, 105, 99, 101, 34, 30, 0]) ∧
    (∀ (env : EncEnv) (customTypes : List IdlTypeDefinition) (fuel : Nat) (s : String),
       getBorshTokenVector env customTypes (fuel + 1) s .String = .ok (.one (.String s))) ∧
    (∀ s : String,
       encodeToken (.String s) = leBytes 4 (utf8Bytes s).length ++ utf8Bytes s) :=
  ⟨by decide, fun env customTypes fuel s => rfl, fun s => rfl⟩

/-! ### C5 -/

/-- C5 counterexample: a vector of a zero-field struct type — one
comma-separated substring (`\x7b\x7d` contains no comma) — encodes
successfully with wire count `[0,0,0,0]`, not a count equal to the number
of substrings. -/
theorem c5_vector_count_counterexample :
    constructInstructionData encEnv0 9 vecEmptyNew ["\x7b\x7d"] [emptyStructDef] =
      .ok (discriminator "global" "new" ++ [0, 0, 0, 0]) ∧
    (splitCommas "\x7b\x7d").length = 1 :=
  ⟨by decide, by decide⟩

/-- C5 (amended): a Vector argument splits its raw string on commas,
recursively encodes each substring, and prepends a 4-byte little-endian
count of the tokens produced; that count equals the number of substrings
whenever each element yields exactly one token (every element type except
zero- and multi-field defined structs); in particular `new(Vec<uint8>)`
with `"1,2,3"` yields the discriminator followed by `[3,0,0,0,1,2,3]`. -/
theorem c5_vector_count :
    (∀ (env : EncEnv) (customTypes : List IdlTypeDefinition) (fuel : Nat) (s : String)
       (elemTy : IdlType) (ts : BorshTokenList),
       getBorshTokenVector env customTypes (fuel + 1) s (.Vec elemTy) = .ok ts →
       ∃ elems, ts = .one (.Array elems) ∧
         encodeElems env customTypes fuel (splitCommas s) elemTy = .ok elems ∧
         encodeToken (.Array elems) = leBytes 4 elems.length ++ encodeTokens elems) ∧
    (∀ (vals : List String) (fuel : Nat) (elemTy : IdlType) (elems : BorshTokenList)
       (env : EncEnv) (customTypes : List IdlTypeDefinition),
       encodeElems env customTypes fuel vals elemTy = .ok elems →
       (∀ (v : String) (f : Nat) (ts : BorshTokenList), v ∈ vals →
         getBorshTokenVector env customTypes f v elemTy = .ok ts → ts.length = 1) →
       elems.length = vals.length) ∧
    constructInstructionData encEnv0 9 vecU8New ["1,2,3"] [] =
      .ok (discriminator "global" "new" ++ [3, 0, 0, 0, 1, 2, 3]) := by
  refine ⟨?_, fun vals fuel elemTy elems env customTypes h hs =>
    encodeElems_length_of_single env customTypes vals fuel elemTy elems h hs, by decide⟩
  intro env customTypes fuel s elemTy ts h
  unfold getBorshTokenVector at h
  cases he : encodeElems env customTypes fuel (splitCommas s) elemTy with
  | error e => simp only [he] at h; exact Except.noConfusion h
  | ok elems =>
      simp only [he] at h
      injection h with h
      exact ⟨elems, h.symm, rfl, rfl⟩

/-- Witness for C5 at the `Vec<uint8>` fixture with `"1,2,3"`: the three
substrings produce exactly three tokens. -/
theorem c5_vector_count_witness :
    BorshTokenList.length
        (.cons (.Uint 8 1) (.cons (.Uint 8 2) (.cons (.Uint 8 3) .nil))) =
      (["1", "2", "3"] : List String).length := by
  refine c5_vector_count.2.1 ["1", "2", "3"] 8 .U8 _ encEnv0 [] rfl ?_
  intro v f ts hv h
  cases f with
  | zero => exact absurd h (by simp [getBorshTokenVector])
  | succ f =>
      simp only [List.mem_cons, List.not_mem_nil, or_false] at hv
      rcases hv with rfl | rfl | rfl
      · rw [show getBorshTokenVector encEnv0 [] (f + 1) "1" .U8 =
            .ok (.one (.Uint 8 1)) from rfl] at h
        injection h with h
        rw [← h]
        rfl
      · rw [show getBorshTokenVector encEnv0 [] (f + 1) "2" .U8 =
            .ok (.one (.Uint 8 2)) from rfl] at h
        injection h with h
        rw [← h]
        rfl
      · rw [show getBorshTokenVector encEnv0 [] (f + 1) "3" .U8 =
            .ok (.one (.Uint 8 3)) from rfl] at h
        injection h with h
        rw [← h]
        rfl

/-! ### C6 -/

/-- C6: a FixedArray argument whose comma-substring count differs from the
declared size fails with the array-size-mismatch error (no output is
produced: the call returns only the error); when the counts agree, each
substring is encoded recursively and the elements are emitted with no
length prefix. -/
theorem c6_fixed_array_size :
    (∀ (env : EncEnv) (customTypes : List IdlTypeDefinition) (fuel : Nat) (s : String)
       (elemTy : IdlType) (n : Nat), (splitCommas s).length ≠ n →
       getBorshTokenVector env customTypes (fuel + 1) s (.Array elemTy n) =
         .error (.err (arraySizeErrMsg s))) ∧
    (∀ (env : EncEnv) (customTypes : List IdlTypeDefinition) (fuel : Nat) (s : String)
       (elemTy : IdlType) (n : Nat) (elems : BorshTokenList),
       (splitCommas s).length = n →
       encodeElems env customTypes fuel (splitCommas s) elemTy = .ok elems →
       getBorshTokenVector env customTypes (fuel + 1) s (.Array elemTy n) =
         .ok (.one (.FixedArray elems)) ∧
       encodeToken (.FixedArray elems) = encodeTokens elems) ∧
    constructInstructionData encEnv0 9 arrU8New ["1,2,3"] [] =
      .error (.err (arraySizeErrMsg "1,2,3")) ∧
    constructInstructionData encEnv0 9 arrU8New ["1,2,3,4"] [] =
      .ok (discriminator "global" "new" ++ [1, 2, 3, 4]) := by
  refine ⟨?_, ?_, by decide, by decide⟩
  · intro env customTypes fuel s elemTy n hne
    simp only [getBorshTokenVector]
    rw [if_pos hne]
  · intro env customTypes fuel s elemTy n elems heq helems
    refine ⟨?_, rfl⟩
    simp only [getBorshTokenVector]
    rw [if_neg (fun hc => hc heq)]
    simp only [helems]

/-- Witness for C6 at the `uint8[4]` fixture: three elements mismatch the
declared size, four match and encode with no prefix. -/
theorem c6_fixed_array_size_witness :
    getBorshTokenVector encEnv0 [] 9 "1,2,3" (.Array .U8 4) =
      .error (.err (arraySizeErrMsg "1,2,3")) ∧
    (getBorshTokenVector encEnv0 [] 9 "1,2,3,4" (.Array .U8 4) =
      .ok (.one (.FixedArray (.cons (.Uint 8 1) (.cons (.Uint 8 2)
        (.cons (.Uint 8 3) (.cons (.Uint 8 4) .nil)))))) ∧
     encodeToken (.FixedArray (.cons (.Uint 8 1) (.cons (.Uint 8 2)
        (.cons (.Uint 8 3) (.cons (.Uint 8 4) .nil))))) =
       encodeTokens (.cons (.Uint 8 1) (.cons (.Uint 8 2)
        (.cons (.Uint 8 3) (.cons (.Uint 8 4) .nil))))) := by
  constructor
  · exact c6_fixed_array_size.1 encEnv0 [] 8 "1,2,3" .U8 4 (by decide)
  · exact c6_fixed_array_size.2.1 encEnv0 [] 8 "1,2,3,4" .U8 4 _ (by decide) rfl

/-! ### C7 -/

set_option maxRecDepth 10000 in
/-- C7 counterexample: in an enum with 257 variants, the raw string
`"v256"` names the variant at zero-based index 256, yet encoding fails with
the u8 parse error instead of producing one byte. -/
theorem c7_variant_overflow_counterexample :
    variantPosition ((List.range 257).map (fun i => ⟨"v" ++ toString i⟩)) "v256" =
      some 256 ∧
    encodeIdDefinedType encEnv0 [] 9 "v256" bigEnumDef =
      .error (.err (mkScalarErrMsg "u8" "unsigned integer" "256")) := by
  constructor
  · decide
  · rfl

/-- C7 (amended): a Tagged-Choice raw string that, after quote removal,
matches no declared variant name fails with VariantNotFound whose message
carries the full list of variant names; a match at zero-based index at most
255 encodes as exactly one byte, the index as an 8-bit unsigned integer (an
index above 255 instead fails the u8 parse, as the counterexample shows). -/
theorem c7_tagged_choice :
    (∀ (env : EncEnv) (customTypes : List IdlTypeDefinition) (fuel : Nat) (s : String)
       (td : IdlTypeDefinition) (variants : List IdlEnumVariant),
       td.ty = .Enum variants →
       variantPosition variants (removeQuotes s) = none →
       encodeIdDefinedType env customTypes (fuel + 1) s td =
         .error (.err (variantNotFoundMsg (removeQuotes s) td.name
           (variants.map IdlEnumVariant.name)))) ∧
    (∀ (env : EncEnv) (customTypes : List IdlTypeDefinition) (fuel : Nat) (s : String)
       (td : IdlTypeDefinition) (variants : List IdlEnumVariant) (idx : Nat),
       td.ty = .Enum variants →
       variantPosition variants (removeQuotes s) = some idx → idx ≤ 255 →
       encodeIdDefinedType env customTypes (fuel + 2) s td = .ok (.one (.Uint 8 idx)) ∧
       encodeToken (.Uint 8 idx) = [idx]) := by
  constructor
  · intro env customTypes fuel s td variants hty hpos
    simp only [encodeIdDefinedType, hty, hpos]
  · intro env customTypes fuel s td variants idx hty hpos hle
    constructor
    · have hp := parse_toString_u8 idx (by omega)
      simp only [encodeIdDefinedType, hty, hpos]
      simp only [getBorshTokenVector, hp]
    · have h1 : (((idx : Int)) % ((2 : Int) ^ 8)).toNat = idx := by
        have h2 : ((2 : Int) ^ 8) = 256 := by norm_num
        rw [h2]
        omega
      show leBytes (8 / 8) (((idx : Int) % ((2 : Int) ^ 8)).toNat) = [idx]
      rw [h1]
      show [idx % 256] = [idx]
      rw [Nat.mod_eq_of_lt (by omega)]

/-- Witness for C7 at the three-variant Color enum: `"Purple"` is rejected
with the enumerating message, `"Red"` encodes as the single byte 0. -/
theorem c7_tagged_choice_witness :
    encodeIdDefinedType encEnv0 [] 9 "Purple" colorDef =
      .error (.err (variantNotFoundMsg "Purple" "Color" ["Red", "Green", "Blue"])) ∧
    (encodeIdDefinedType encEnv0 [] 9 "Red" colorDef = .ok (.one (.Uint 8 0)) ∧
     encodeToken (.Uint 8 0) = [0]) := by
  constructor
  · exact c7_tagged_choice.1 encEnv0 [] 8 "Purple" colorDef [⟨"Red"⟩, ⟨"Green"⟩, ⟨"Blue"⟩]
      rfl rfl
  · exact c7_tagged_choice.2 encEnv0 [] 7 "Red" colorDef [⟨"Red"⟩, ⟨"Green"⟩, ⟨"Blue"⟩] 0
      rfl rfl (by omega)

/-! ### C10 -/

/-- C10 counterexample: splitting `\x7b\x7d` on commas yields one
substring, yet the encoder produces the empty Array token — an empty vector
(wire count 0) is reachable through a zero-field struct element type. -/
theorem c10_empty_vector_counterexample :
    getBorshTokenVector encEnv0 [emptyStructDef] 9 "\x7b\x7d" (.Vec (.Defined "Empty")) =
      .ok (.one (.Array .nil)) ∧
    BorshTokenList.nil.length = 0 ∧ (splitCommas "\x7b\x7d").length = 1 :=
  ⟨rfl, rfl, by decide⟩

/-- C10 (amended): splitting on commas always yields at least one substring
(the empty raw string is one empty piece, giving e.g. a one-element
`Vec<string>`), and any successful vector encode has at least one token per
substring — hence count at least 1 — whenever every element yields at least
one token, which holds for every element type except zero-field defined
structs (by the counterexample, those can produce wire count 0). -/
theorem c10_vector_nonempty :
    (∀ s : String, 1 ≤ (splitCommas s).length) ∧
    splitCommas "" = [""] ∧
    (∀ (env : EncEnv) (customTypes : List IdlTypeDefinition) (fuel : Nat),
       getBorshTokenVector env customTypes (fuel + 3) "" (.Vec .String) =
         .ok (.one (.Array (.one (.String ""))))) ∧
    (∀ (vals : List String) (fuel : Nat) (elemTy : IdlType) (elems : BorshTokenList)
       (env : EncEnv) (customTypes : List IdlTypeDefinition),
       encodeElems env customTypes fuel vals elemTy = .ok elems →
       vals ≠ [] →
       (∀ (v : String) (f : Nat) (ts : BorshTokenList), v ∈ vals →
         getBorshTokenVector env customTypes f v elemTy = .ok ts → 1 ≤ ts.length) →
       1 ≤ elems.length) := by
  refine ⟨splitCommas_length_pos, by decide, fun env customTypes fuel => rfl, ?_⟩
  intro vals fuel elemTy elems env customTypes h hne hone
  have hge := encodeElems_length_ge env customTypes vals fuel elemTy elems h hone
  have hv : 1 ≤ vals.length := by
    cases vals with
    | nil => exact absurd rfl hne
    | cons a r => simp
  omega

/-- Witness for C10's amended theorem: the singleton split of the empty
string encodes as a one-token vector of the empty string. -/
theorem c10_vector_nonempty_witness :
    1 ≤ BorshTokenList.length (.one (.String "")) :=
  c10_vector_nonempty.2.2.2 [""] 8 .String (.one (.String "")) encEnv0 [] rfl
    (by simp)
    (fun v f ts hv h => by
      cases f with
      | zero => exact absurd h (by simp [getBorshTokenVector])
      | succ f =>
          simp only [List.mem_singleton] at hv
          subst hv
          rw [show getBorshTokenVector encEnv0 [] (f + 1) "" .String =
            .ok (.one (.String "")) from rfl] at h
          injection h with h
          rw [← h]
          exact Nat.le.refl)
